import Mathlib

/-!
# Picolin virtual machine: a shallow embedding of `src/vm.h`

The Picolin repository implements a stack-based bytecode virtual machine
operating on 64-bit floating-point values, with a vector sub-heap, a
vector-descriptor table, and a binary snapshot facility.  This file embeds
the VM (the whole of `src/vm.h`: the data model, the helper routines
`push`/`pop`/`fetch_byte`/`fetch_int`/`fetch_double`, the fetch-decode-execute
loop `vm_execute`, the loader `vm_load_program` and `main`) as executable
Lean definitions and proves the specification's claims about it.

Modelling conventions:
* C `double` values are idealized as exact rationals (`ℚ`); IEEE-754
  rounding, infinities and NaNs are outside the model.  A `double` literal
  in the bytecode is decoded from its little-endian IEEE-754 binary64 byte
  pattern exactly (finite patterns decode to their exact rational value;
  the non-finite patterns, which no claim exercises, decode to 0).
* C `int` fields are `Int`; array indexing performed by the C code is
  modelled with `Array.getD`/`Array.setD` (reads outside the array yield 0
  and writes outside it are dropped; the claims' hypotheses keep every
  access the C code performs in bounds, matching the in-bounds C behavior).
* The outside world (the `memory.dump` snapshot file, stdin, the PRNG and
  stdout) is an explicit `World` record threaded through execution.
* `fprintf(stderr, ...)` diagnostics are not value-producing; a "fatal"
  path is the C `return` out of `vm_execute`, modelled by the `faulted`
  result, while non-fatal paths continue with the substituted default,
  exactly as the C code does.
-/

namespace Picolin

set_option maxRecDepth 100000


/-- The VM's value domain: C `double`, idealized as an exact rational. -/
abbrev Val := ℚ

/-- Models `#define STACK_SIZE 1024`. -/
def STACK_SIZE : Int := 1024

/-- Models `#define GLOBAL_SIZE 256`. -/
def GLOBAL_SIZE : Int := 256

/-- Models `#define MAX_PROGRAM_SIZE 4096`. -/
def MAX_PROGRAM_SIZE : Int := 4096

/-- Models `#define MEMORY_SIZE 1024`. -/
def MEMORY_SIZE : Int := 1024

/-- Models `#define MAX_VECTORS 128`. -/
def MAX_VECTORS : Int := 128

/-- Vector metadata structure (`VectorInfo` in `vm.h`). -/
structure VectorInfo where
  size : Int
  address : Int
deriving DecidableEq, Repr

/-- The virtual machine state (`VM` in `vm.h`).  Arrays carry their C
capacities (1024 / 256 / 1024 / 128 / 4096) as an invariant established by
`vm_create` and preserved by every operation. -/
structure VM where
  stack : Array Val
  sp : Int
  ip : Int
  globals : Array Val
  memory : Array Val
  vectors : Array VectorInfo
  next_vector_index : Int
  next_memory_address : Int
  code : Array Nat
  code_size : Int
deriving DecidableEq, Repr

/-- The content of the `memory.dump` snapshot file written by
`OP_SAVE_FILE`: `next_memory_address`, `next_vector_index`, the full
`memory` array and the full `vectors` table, in that order. -/
structure Snapshot where
  next_memory_address : Int
  next_vector_index : Int
  memory : Array Val
  vectors : Array VectorInfo
deriving DecidableEq, Repr

/-- The world outside the VM: the snapshot file (`none` while absent or
unreadable), whether the snapshot file can be created for writing, the
stdin stream consumed by `OP_INPUT` (`none` marks a `scanf` parse
failure), the stream of values produced by `rand()` for `OP_RAND`, and
the stdout lines produced by `OP_PRINT`. -/
structure World where
  file : Option Snapshot
  writable : Bool
  inputs : List (Option Val)
  rands : List Val
  output : List Val
deriving DecidableEq, Repr

/-- Models `vm_create`: allocate a VM with every array zero-filled, `sp = -1`,
`ip = 0`, `code_size = 0`, both allocation cursors 0. -/
def vm_create : VM :=
  { stack := Array.mkArray 1024 0
    sp := -1
    ip := 0
    globals := Array.mkArray 256 0
    memory := Array.mkArray 1024 0
    vectors := Array.mkArray 128 ⟨0, 0⟩
    next_vector_index := 0
    next_memory_address := 0
    code := Array.mkArray 4096 0
    code_size := 0 }

/-- Models `push`: if `sp >= STACK_SIZE - 1` report overflow and do nothing,
else `stack[++sp] = value`. -/
def push (vm : VM) (value : Val) : VM :=
  if vm.sp ≥ 1023 then vm
  else { vm with sp := vm.sp + 1, stack := vm.stack.setD (vm.sp + 1).toNat value }

/-- Models `pop`: if `sp < 0` report underflow and return `0.0`, else return
`stack[sp--]`. -/
def pop (vm : VM) : Val × VM :=
  if vm.sp < 0 then (0, vm)
  else (vm.stack.getD vm.sp.toNat 0, { vm with sp := vm.sp - 1 })

/-- Byte of the code buffer at absolute offset `k` (the C read
`vm->code[k]`). -/
def byteAt (vm : VM) (k : Nat) : Nat := vm.code.getD k 0

/-- Models `fetch_byte`: if `ip >= code_size` report and return `OP_HALT` (20)
without advancing, else return `code[ip++]`. -/
def fetch_byte (vm : VM) : Nat × VM :=
  if vm.ip ≥ vm.code_size then (20, vm)
  else (byteAt vm vm.ip.toNat, { vm with ip := vm.ip + 1 })

/-- Reinterpret a 32-bit unsigned value as the two's-complement signed
`int` the C `memcpy` into an `int` produces. -/
def toSigned32 (n : Nat) : Int :=
  if n < 2 ^ 31 then (n : Int) else (n : Int) - 2 ^ 32

/-- Models `fetch_int`: if fewer than 4 bytes remain report and return 0 without
advancing, else assemble the little-endian 4-byte two's-complement `int`
at `ip` and advance `ip` by 4. -/
def fetch_int (vm : VM) : Int × VM :=
  if vm.ip + 4 > vm.code_size then (0, vm)
  else
    let b := vm.ip.toNat
    (toSigned32 (byteAt vm b + 2 ^ 8 * byteAt vm (b + 1) +
        2 ^ 16 * byteAt vm (b + 2) + 2 ^ 24 * byteAt vm (b + 3)),
      { vm with ip := vm.ip + 4 })

/-- Decode a 64-bit IEEE-754 binary64 bit pattern to its exact rational
value (the C `memcpy` of 8 code bytes into a `double`).  The non-finite
patterns (exponent field 2047: infinities and NaNs), which have no
rational value, decode to 0 in this idealized model. -/
def decodeDoubleBits (n : Nat) : Val :=
  let sign : Nat := n / 2 ^ 63
  let expo : Nat := (n / 2 ^ 52) % 2 ^ 11
  let frac : Nat := n % 2 ^ 52
  let mag : Val :=
    if expo = 2047 then 0
    else if expo = 0 then (frac : Val) / 2 ^ 1074
    else ((2 ^ 52 + frac : Nat) : Val) * 2 ^ expo / 2 ^ 1075
  if sign = 1 then -mag else mag

/-- Models `fetch_double`: if fewer than 8 bytes remain report and return `0.0`
without advancing, else decode the little-endian 8-byte `double` at `ip`
and advance `ip` by 8. -/
def fetch_double (vm : VM) : Val × VM :=
  if vm.ip + 8 > vm.code_size then (0, vm)
  else
    let b := vm.ip.toNat
    (decodeDoubleBits (byteAt vm b + 2 ^ 8 * byteAt vm (b + 1) +
        2 ^ 16 * byteAt vm (b + 2) + 2 ^ 24 * byteAt vm (b + 3) +
        2 ^ 32 * byteAt vm (b + 4) + 2 ^ 40 * byteAt vm (b + 5) +
        2 ^ 48 * byteAt vm (b + 6) + 2 ^ 56 * byteAt vm (b + 7)),
      { vm with ip := vm.ip + 8 })

/-- The C cast `(int)d` applied to a vector reference: truncation toward
zero. -/
def doubleToInt (q : Val) : Int := q.num.tdiv (q.den : Int)

/-- The `OP_VECTOR` element loop: `for (i = vector_size - 1; i >= 0; i--)`,
checking `sp < 0` (fatal: `.error` with the state at the fault) before
each `memory[address + i] = pop(vm)`.  The argument counts the remaining
iterations, so a call with `i + 1` performs C loop index `i` first. -/
def vectorFill (address : Int) : Nat → VM → Except VM VM
  | 0, vm => .ok vm
  | i + 1, vm =>
    if vm.sp < 0 then .error vm
    else
      let p := pop vm
      vectorFill address i
        { p.2 with memory := p.2.memory.setD (address + (i : Int)).toNat p.1 }

/-- The `OP_DOT` accumulation loop: left-to-right
`dot_product += memory[a1 + i] * memory[a2 + i]` for `i = 0 .. size-1`. -/
def dotProd (vm : VM) (a1 a2 : Int) (size : Nat) : Val :=
  (List.range size).foldl
    (fun (acc : Val) (i : Nat) => acc + vm.memory.getD (a1 + (i : Int)).toNat 0 *
      vm.memory.getD (a2 + (i : Int)).toNat 0) 0

/-- The `OP_EQ` epsilon. -/
def epsilon : Val := 1 / 10 ^ 9

/-- Models the IEEE-754 binary64 value classes of a C `double`, for the
claim about the `OP_EQ` comparison on non-finite operands: `finite q` is
an exact finite value (the two IEEE zeros collapse to `0`, which IEEE
comparisons cannot tell apart), `inf b` is `+inf` when `b` is `true` and
`-inf` otherwise, and `nan` is any NaN payload. -/
inductive FP where
  | finite (q : ℚ)
  | inf (positive : Bool)
  | nan
deriving DecidableEq, Repr

/-- IEEE-754 subtraction of `double` values, as performed by the `a - b`
and `b - a` expressions of the `OP_EQ` case: a NaN operand propagates,
`inf - inf` of equal signs is NaN, an infinite operand otherwise
dominates with the sign of its side, and a finite difference is the
exact rational one (rounding idealized, as for all finite arithmetic in
this model). -/
def fpSub : FP → FP → FP
  | .nan, _ => .nan
  | _, .nan => .nan
  | .inf s1, .inf s2 => if s1 = s2 then .nan else .inf s1
  | .inf s, .finite _ => .inf s
  | .finite _, .inf s => .inf !s
  | .finite q1, .finite q2 => .finite (q1 - q2)

/-- The IEEE-754 `<` comparison on `double` values used by the `OP_EQ`
case: false whenever either operand is NaN (the comparison is unordered),
`-inf` is below every non-NaN value other than `-inf`, `+inf` is above
every non-NaN value other than `+inf`, and finite values compare as
rationals. -/
def fpLess : FP → FP → Bool
  | .nan, _ => false
  | _, .nan => false
  | .inf s1, .inf s2 => !s1 && s2
  | .inf s, .finite _ => !s
  | .finite _, .inf s => s
  | .finite q1, .finite q2 => decide (q1 < q2)

/-- IEEE-754 `fabs` on `double` values, the `|a - b|` of the
specification: NaN stays NaN, both infinities map to `+inf`, a finite
value to its absolute value. -/
def fpAbs : FP → FP
  | .nan => .nan
  | .inf _ => .inf true
  | .finite q => .finite |q|

/-- The `OP_SAVE_FILE` case body: open `memory.dump` for writing (failure
is reported and non-fatal) and write `next_memory_address`,
`next_vector_index`, the `memory` array and the `vectors` table. -/
def execSaveFile (vm : VM) (w : World) : VM × World :=
  if w.writable then
    (vm, { w with file := some ⟨vm.next_memory_address, vm.next_vector_index,
        vm.memory, vm.vectors⟩ })
  else (vm, w)

/-- The `OP_LOAD_FILE` case body: open `memory.dump` for reading (failure
is reported and non-fatal) and read back the four snapshot fields.  The
model's file, when present, is a complete well-formed snapshot, so the C
partial-read failure path does not arise. -/
def execLoadFile (vm : VM) (w : World) : VM × World :=
  match w.file with
  | none => (vm, w)
  | some s =>
    ({ vm with next_memory_address := s.next_memory_address
               next_vector_index := s.next_vector_index
               memory := s.memory
               vectors := s.vectors }, w)

/-- Result of executing one instruction: continue the loop, leave it via
`OP_HALT`, or leave it via a fatal fault (`return` after an error
report). -/
inductive StepResult where
  | cont (vm : VM) (w : World)
  | halted (vm : VM) (w : World)
  | faulted (vm : VM) (w : World)
deriving DecidableEq, Repr

/-- The body of the `switch (opcode)` statement of `vm_execute`, one
branch per opcode in enum order (`OP_PUSH` = 0 … `OP_HALT` = 20), with
the `default` branch faulting on an unknown opcode. -/
def execOp (opcode : Nat) (vm : VM) (w : World) : StepResult :=
  if opcode = 0 then -- OP_PUSH
    let f := fetch_double vm
    .cont (push f.2 f.1) w
  else if opcode = 1 then -- OP_ADD
    let b := pop vm
    let a := pop b.2
    .cont (push a.2 (a.1 + b.1)) w
  else if opcode = 2 then -- OP_SUB
    let b := pop vm
    let a := pop b.2
    .cont (push a.2 (a.1 - b.1)) w
  else if opcode = 3 then -- OP_MUL
    let b := pop vm
    let a := pop b.2
    .cont (push a.2 (a.1 * b.1)) w
  else if opcode = 4 then -- OP_DIV
    let b := pop vm
    let a := pop b.2
    if b.1 = 0 then .faulted a.2 w
    else .cont (push a.2 (a.1 / b.1)) w
  else if opcode = 5 then -- OP_PRINT
    if vm.sp ≥ 0 then
      .cont { vm with sp := vm.sp - 1 }
        { w with output := w.output ++ [vm.stack.getD vm.sp.toNat 0] }
    else .cont vm w
  else if opcode = 6 then -- OP_STORE
    let f := fetch_int vm
    if f.1 < 0 ∨ f.1 ≥ 256 then .faulted f.2 w
    else
      let p := pop f.2
      .cont { p.2 with globals := p.2.globals.setD f.1.toNat p.1 } w
  else if opcode = 7 then -- OP_LOAD
    let f := fetch_int vm
    if f.1 < 0 ∨ f.1 ≥ 256 then .faulted f.2 w
    else .cont (push f.2 (f.2.globals.getD f.1.toNat 0)) w
  else if opcode = 8 then -- OP_VECTOR
    let f := fetch_int vm
    if f.1 ≤ 0 ∨ f.1 > 1024 then .faulted f.2 w
    else if f.2.next_memory_address + f.1 > 1024 then .faulted f.2 w
    else if f.2.next_vector_index ≥ 128 then .faulted f.2 w
    else
      let address := f.2.next_memory_address
      match vectorFill address f.1.toNat f.2 with
      | .error vmf => .faulted vmf w
      | .ok vm2 =>
        let vm3 := { vm2 with
          vectors := vm2.vectors.setD vm2.next_vector_index.toNat
            ⟨f.1, address⟩ }
        let vm4 := push vm3 ((vm3.next_vector_index : Int) : Val)
        .cont { vm4 with next_memory_address := vm4.next_memory_address + f.1
                         next_vector_index := vm4.next_vector_index + 1 } w
  else if opcode = 9 then -- OP_DOT
    let p2 := pop vm
    let p1 := pop p2.2
    let ptr1 := doubleToInt p1.1
    let ptr2 := doubleToInt p2.1
    if ptr1 < 0 ∨ ptr1 ≥ p1.2.next_vector_index ∨
        ptr2 < 0 ∨ ptr2 ≥ p1.2.next_vector_index then .faulted p1.2 w
    else
      let vec1 := p1.2.vectors.getD ptr1.toNat ⟨0, 0⟩
      let vec2 := p1.2.vectors.getD ptr2.toNat ⟨0, 0⟩
      if vec1.size ≠ vec2.size then .faulted p1.2 w
      else .cont (push p1.2 (dotProd p1.2 vec1.address vec2.address
        vec1.size.toNat)) w
  else if opcode = 10 then -- OP_RELU
    let p := pop vm
    if p.1 < 0 then .cont (push p.2 0) w else .cont (push p.2 p.1) w
  else if opcode = 11 then -- OP_GT
    let b := pop vm
    let a := pop b.2
    .cont (push a.2 (if a.1 > b.1 then 1 else 0)) w
  else if opcode = 12 then -- OP_LT
    let b := pop vm
    let a := pop b.2
    .cont (push a.2 (if a.1 < b.1 then 1 else 0)) w
  else if opcode = 13 then -- OP_EQ
    let b := pop vm
    let a := pop b.2
    .cont (push a.2
      (if a.1 - b.1 < epsilon ∧ b.1 - a.1 < epsilon then 1 else 0)) w
  else if opcode = 14 then -- OP_JUMP_IF_FALSE
    let f := fetch_int vm
    let c := pop f.2
    if c.1 = 0 then .cont { c.2 with ip := c.2.ip + f.1 } w
    else .cont c.2 w
  else if opcode = 15 then -- OP_JUMP
    let f := fetch_int vm
    .cont { f.2 with ip := f.2.ip + f.1 } w
  else if opcode = 16 then -- OP_RAND
    .cont (push vm (w.rands.headD 0)) { w with rands := w.rands.tail }
  else if opcode = 17 then -- OP_INPUT
    let v : Val := match w.inputs.head? with
      | some (some q) => q
      | _ => 0
    .cont (push vm v) { w with inputs := w.inputs.tail }
  else if opcode = 18 then -- OP_SAVE_FILE
    let r := execSaveFile vm w
    .cont r.1 r.2
  else if opcode = 19 then -- OP_LOAD_FILE
    let r := execLoadFile vm w
    .cont r.1 r.2
  else if opcode = 20 then -- OP_HALT
    .halted vm w
  else -- default: unknown opcode
    .faulted vm w

/-- One iteration of the `vm_execute` loop body: fetch the opcode byte,
then dispatch on it. -/
def step (vm : VM) (w : World) : StepResult :=
  let f := fetch_byte vm
  execOp f.1 f.2 w

/-- How `vm_execute` ended: `halted` (an `OP_HALT` or the natural end of
the code) or `faulted` (a fatal error report followed by `return`). -/
inductive Outcome where
  | halted
  | faulted
deriving DecidableEq, Repr

/-- Models the `while (ip < code_size)` loop, run for at most `fuel`
iterations; `none` means the loop was still running when the fuel ran
out.  Entry resets `ip` to 0 in `vm_execute`; `run` is the loop itself
from an arbitrary state. -/
def run : Nat → VM → World → Option (Outcome × VM × World)
  | 0, _, _ => none
  | fuel + 1, vm, w =>
    if vm.ip < vm.code_size then
      match step vm w with
      | .cont vm1 w1 => run fuel vm1 w1
      | .halted vm1 w1 => some (.halted, vm1, w1)
      | .faulted vm1 w1 => some (.faulted, vm1, w1)
    else some (.halted, vm, w)

/-- Models `vm_execute`: reset `ip` to 0 and run the loop. -/
def vm_execute (fuel : Nat) (vm : VM) (w : World) :
    Option (Outcome × VM × World) :=
  run fuel { vm with ip := 0 } w

/-- Exactly `n` consecutive `.cont` steps of the loop (each taken only
when the loop guard `ip < code_size` holds); `none` if any of the `n`
iterations leaves the loop or fails the guard. -/
def stepsN : Nat → VM → World → Option (VM × World)
  | 0, vm, w => some (vm, w)
  | k + 1, vm, w =>
    if vm.ip < vm.code_size then
      match step vm w with
      | .cont vm1 w1 => stepsN k vm1 w1
      | _ => none
    else none

/-- Models `vm_load_program`: `none` stands for a file that cannot be
opened; a program larger than `MAX_PROGRAM_SIZE` or of 0 bytes fails;
otherwise the bytes are read into the front of the code buffer and
`code_size` is set to the byte count.  The zero-filled remainder of the
C code buffer past the loaded bytes is modelled by `byteAt`'s `getD`
default of 0, so the loaded array holds exactly the program bytes. -/
def vm_load_program (vm : VM) (file : Option (List Nat)) : Option VM :=
  match file with
  | none => none
  | some bytes =>
    if (bytes.length : Int) > 4096 then none
    else if bytes.length = 0 then none
    else some { vm with
      code := bytes.toArray
      code_size := (bytes.length : Int) }

/-- Models `main`: exit 1 if `vm_create`'s allocation fails, exit 1 if the
program cannot be loaded, else run `vm_execute` (whose outcome is
discarded) and exit 0.  `none` while execution has not yet finished
within `fuel` iterations. -/
def mainRun (fuel : Nat) (allocOk : Bool) (file : Option (List Nat))
    (w : World) : Option Int :=
  if allocOk then
    match vm_load_program vm_create file with
    | none => some 1
    | some vm =>
      match vm_execute fuel vm w with
      | none => none
      | some _ => some 0
  else some 1

/-- The little-endian signed 4-byte operand beginning at absolute code
offset `k`. -/
def intOperandAt (vm : VM) (k : Nat) : Int :=
  toSigned32 (byteAt vm k + 2 ^ 8 * byteAt vm (k + 1) +
    2 ^ 16 * byteAt vm (k + 2) + 2 ^ 24 * byteAt vm (k + 3))

def w0 : World := ⟨none, true, [], [], []⟩

def padCode (l : List Nat) : Array Nat :=
  (l ++ List.replicate (4096 - l.length) 0).toArray

def vmV : VM := { vm_create with
  stack := #[5, 7]
  sp := 1
  code := #[8, 2, 0, 0, 0]
  code_size := 5 }

def vmVf : VM := { vmV with sp := 0 }

def vmDot : VM := { vm_create with
  stack := #[0, 1]
  sp := 1
  memory := #[3, 4, 5, 6]
  vectors := #[⟨2, 0⟩, ⟨2, 2⟩]
  next_vector_index := 2
  code := #[9]
  code_size := 1 }

def vmD : VM := { vm_create with
  stack := #[1, 2, 0, 0]
  sp := 1
  globals := #[3, 4]
  code := #[8, 2, 0, 0, 0, 7, 0, 0, 0, 0, 7, 1, 0, 0, 0, 8, 2, 0, 0, 0, 9]
  code_size := 21 }

/-- Structural well-formedness of a VM state: the C array capacities and
the basic cursor bounds that hold from `vm_create` on. -/
def WF (vm : VM) : Prop :=
  vm.stack.size = 1024 ∧ vm.globals.size = 256 ∧ vm.memory.size = 1024 ∧
  vm.vectors.size = 128 ∧ -1 ≤ vm.sp ∧ vm.sp ≤ 1023 ∧
  0 ≤ vm.next_memory_address ∧ 0 ≤ vm.next_vector_index

/-- The claim's vector-subsystem invariant: every allocated descriptor
lies below the memory cursor, which lies below `MEMORY_SIZE`, and the
vector cursor is bounded by `MAX_VECTORS`. -/
def Inv (vm : VM) : Prop :=
  vm.next_memory_address ≤ 1024 ∧ vm.next_vector_index ≤ 128 ∧
  ∀ i : Nat, (i : Int) < vm.next_vector_index →
    (vm.vectors.getD i ⟨0, 0⟩).address + (vm.vectors.getD i ⟨0, 0⟩).size ≤
      vm.next_memory_address

/-- A well-formed snapshot: what `OP_SAVE_FILE` writes from a well-formed
invariant-satisfying VM. -/
def SnapOK (s : Snapshot) : Prop :=
  s.memory.size = 1024 ∧ s.vectors.size = 128 ∧
  0 ≤ s.next_memory_address ∧ 0 ≤ s.next_vector_index ∧
  s.next_memory_address ≤ 1024 ∧ s.next_vector_index ≤ 128 ∧
  ∀ i : Nat, (i : Int) < s.next_vector_index →
    (s.vectors.getD i ⟨0, 0⟩).address + (s.vectors.getD i ⟨0, 0⟩).size ≤
      s.next_memory_address

/-- The snapshot file, when present, is well formed. -/
def WorldOK (w : World) : Prop := ∀ s, w.file = some s → SnapOK s

/-- The VM component of a step result (the state the engine is left in,
whether it continues, halts or faults). -/
def resVM : StepResult → VM
  | .cont vm _ => vm
  | .halted vm _ => vm
  | .faulted vm _ => vm

/-- The world component of a step result. -/
def resWorld : StepResult → World
  | .cont _ w => w
  | .halted _ w => w
  | .faulted _ w => w

def vmC3 : VM := { vm_create with code := #[0, 5], code_size := 2 }

def vmS : VM := { vm_create with
  memory := #[7, 8]
  vectors := #[⟨2, 0⟩]
  next_vector_index := 1
  next_memory_address := 2
  code := #[18]
  code_size := 1 }

def vmDiv : VM := { vm_create with
  stack := #[3, 0]
  sp := 1
  code := #[4]
  code_size := 1 }

def vmDiv2 : VM := { vm_create with
  stack := #[3, 2]
  sp := 1
  code := #[4]
  code_size := 1 }

def wSaved : World := (execSaveFile vmS w0).2

def vmFull : VM := { vm_create with sp := 1023 }

def vmAddE : VM := { vm_create with code := #[1], code_size := 1 }

def vmEq1 : VM := { vm_create with
  stack := #[1, 10000000001 / 10 ^ 10]
  sp := 1
  code := #[13]
  code_size := 1 }

def vmEq2 : VM := { vm_create with
  stack := #[1, 11 / 10]
  sp := 1
  code := #[13]
  code_size := 1 }

def vmSt : VM := { vm_create with
  stack := #[5]
  sp := 0
  code := #[6, 0, 1, 0, 0]
  code_size := 5 }

def vmLd : VM := { vm_create with
  code := #[7, 255, 255, 255, 255]
  code_size := 5 }

/-! ## Lemmas and claim theorems -/

/-! ## Basic array and helper lemmas -/

/-- Reading back the index just written by `setD`, when it is in bounds. -/
theorem getD_setD_self {α : Type} (a : Array α) (i : Nat) (v d : α)
    (h : i < a.size) : (a.setD i v).getD i d = v := by
  unfold Array.setD
  split
  · rw [Array.getD_eq_get?, Array.get?_set_eq]
    rfl
  · omega

/-- Writing with `setD` leaves every other index unchanged. -/
theorem getD_setD_ne {α : Type} (a : Array α) (i j : Nat) (v d : α)
    (hne : i ≠ j) : (a.setD i v).getD j d = a.getD j d := by
  unfold Array.setD
  split
  · rw [Array.getD_eq_get?, Array.get?_set_ne _ _ _ hne, ← Array.getD_eq_get?]
  · rfl

/-- Evaluation of `fetch_byte` when the program counter is inside the code. -/
theorem fetch_byte_eq (vm : VM) (h : vm.ip < vm.code_size) :
    fetch_byte vm = (byteAt vm vm.ip.toNat, { vm with ip := vm.ip + 1 }) := by
  unfold fetch_byte
  rw [if_neg (by omega)]

/-- One loop iteration from inside the code is a dispatch on the fetched
opcode byte. -/
theorem step_eq (vm : VM) (w : World) (h : vm.ip < vm.code_size) :
    step vm w = execOp (byteAt vm vm.ip.toNat) { vm with ip := vm.ip + 1 } w := by
  unfold step
  rw [fetch_byte_eq vm h]

/-- Evaluation of `fetch_int` when 4 operand bytes remain. -/
theorem fetch_int_eq (vm : VM) (h : vm.ip + 4 ≤ vm.code_size) :
    fetch_int vm = (intOperandAt vm vm.ip.toNat, { vm with ip := vm.ip + 4 }) := by
  unfold fetch_int intOperandAt
  rw [if_neg (by omega)]

/-- A fatal fault makes the loop return immediately with the `faulted`
outcome: no further instruction executes. -/
theorem run_of_faulted (fuel : Nat) (vm vmf : VM) (w wf : World)
    (h : vm.ip < vm.code_size) (hs : step vm w = .faulted vmf wf) :
    run (fuel + 1) vm w = some (.faulted, vmf, wf) := by
  unfold run
  rw [if_pos h, hs]

theorem push_lt (vm : VM) (v : Val) (h : vm.sp < 1023) :
    push vm v = { vm with
      sp := vm.sp + 1
      stack := vm.stack.setD (vm.sp + 1).toNat v } := by
  unfold push
  rw [if_neg (by omega)]

theorem pop_nonneg (vm : VM) (h : 0 ≤ vm.sp) :
    pop vm = (vm.stack.getD vm.sp.toNat 0, { vm with sp := vm.sp - 1 }) := by
  unfold pop
  rw [if_neg (by omega)]

theorem pop_neg (vm : VM) (h : vm.sp < 0) : pop vm = (0, vm) := by
  unfold pop
  rw [if_pos h]

theorem vectorFill_succ (address : Int) (i : Nat) (vm : VM) :
    vectorFill address (i + 1) vm =
      if vm.sp < 0 then .error vm
      else
        vectorFill address i
          { (pop vm).2 with
            memory := (pop vm).2.memory.setD (address + (i : Int)).toNat (pop vm).1 } := by
  rfl

theorem vectorFill_ok (A : Nat) :
    ∀ (k : Nat) (vm : VM), vm.memory.size = 1024 → (k : Int) ≤ vm.sp + 1 →
    A + k ≤ 1024 →
    ∃ M : Array Val,
      vectorFill (A : Int) k vm = .ok { vm with
        sp := vm.sp - k
        memory := M } ∧
      M.size = 1024 ∧
      (∀ j : Nat, j < k →
        M.getD (A + j) 0 = vm.stack.getD (vm.sp - k + 1 + j).toNat 0) ∧
      (∀ m : Nat, m < A ∨ A + k ≤ m → M.getD m 0 = vm.memory.getD m 0) := by
  intro k
  induction k with
  | zero =>
    intro vm hm _ _
    refine ⟨vm.memory, ?_, hm, fun j hj => absurd hj (Nat.not_lt_zero j), fun m _ => rfl⟩
    show Except.ok vm = _
    rw [show vm.sp - ((0 : Nat) : Int) = vm.sp from by omega]
  | succ k ih =>
    intro vm hm hsp hA
    have hsp0 : 0 ≤ vm.sp := by omega
    set vmMid : VM := { vm with
      sp := vm.sp - 1
      memory := vm.memory.setD (A + k) (vm.stack.getD vm.sp.toNat 0) } with hmid
    have hidx : ((A : Int) + (k : Int)).toNat = A + k := by omega
    have hstep : vectorFill (A : Int) (k + 1) vm = vectorFill (A : Int) k vmMid := by
      rw [vectorFill_succ, if_neg (by omega), pop_nonneg vm hsp0]
      simp only [vmMid, hidx]
    obtain ⟨M, hfill, hMsz, hins, hout⟩ := ih vmMid
      (by simp [vmMid, Array.size_setD, hm]) (by simp [vmMid]; omega) (by omega)
    refine ⟨M, ?_, hMsz, ?_, ?_⟩
    · rw [hstep, hfill]
      simp only [vmMid]
      congr 2
      omega
    · intro j hj
      rcases Nat.lt_or_ge j k with hjk | hjk
      · rw [hins j hjk]
        simp only [vmMid]
        congr 2
        omega
      · have hjeq : j = k := by omega
        subst hjeq
        rw [hout (A + j) (by omega)]
        simp only [vmMid]
        rw [getD_setD_self _ _ _ _ (by omega)]
        congr 2
        omega
    · intro m hmrange
      rw [hout m (by omega)]
      simp only [vmMid]
      rw [getD_setD_ne _ _ _ _ _ (by omega)]

theorem vectorFill_err (A : Int) :
    ∀ (k : Nat) (vm : VM), -1 ≤ vm.sp → vm.sp + 1 < k →
    ∃ vmf, vectorFill A k vm = .error vmf := by
  intro k
  induction k with
  | zero => intro vm h1 h2; omega
  | succ k ih =>
    intro vm h1 h2
    by_cases hsp : vm.sp < 0
    · exact ⟨vm, by unfold vectorFill; rw [if_pos hsp]⟩
    · have hsp0 : 0 ≤ vm.sp := by omega
      obtain ⟨vmf, hf⟩ := ih
        { vm with
          sp := vm.sp - 1
          memory := vm.memory.setD (A + (k : Int)).toNat
            (vm.stack.getD vm.sp.toNat 0) } (by simp; omega) (by simp; omega)
      refine ⟨vmf, ?_⟩
      rw [vectorFill_succ, if_neg hsp, pop_nonneg vm hsp0]
      exact hf

theorem execOp_push (vm : VM) (w : World) :
    execOp 0 vm w = .cont (push (fetch_double vm).2 (fetch_double vm).1) w := rfl

theorem execOp_add (vm : VM) (w : World) :
    execOp 1 vm w =
      .cont (push (pop (pop vm).2).2 ((pop (pop vm).2).1 + (pop vm).1)) w := rfl

theorem execOp_div (vm : VM) (w : World) :
    execOp 4 vm w =
      (if (pop vm).1 = 0 then .faulted (pop (pop vm).2).2 w
       else .cont (push (pop (pop vm).2).2 ((pop (pop vm).2).1 / (pop vm).1)) w) := rfl

theorem execOp_store (vm : VM) (w : World) :
    execOp 6 vm w =
      (if (fetch_int vm).1 < 0 ∨ (fetch_int vm).1 ≥ 256 then
        .faulted (fetch_int vm).2 w
       else
        .cont { (pop (fetch_int vm).2).2 with
          globals := (pop (fetch_int vm).2).2.globals.setD
            (fetch_int vm).1.toNat (pop (fetch_int vm).2).1 } w) := rfl

theorem execOp_load (vm : VM) (w : World) :
    execOp 7 vm w =
      (if (fetch_int vm).1 < 0 ∨ (fetch_int vm).1 ≥ 256 then
        .faulted (fetch_int vm).2 w
       else
        .cont (push (fetch_int vm).2
          ((fetch_int vm).2.globals.getD (fetch_int vm).1.toNat 0)) w) := rfl

theorem execOp_vector (vm : VM) (w : World) :
    execOp 8 vm w =
      (let f := fetch_int vm
       if f.1 ≤ 0 ∨ f.1 > 1024 then .faulted f.2 w
       else if f.2.next_memory_address + f.1 > 1024 then .faulted f.2 w
       else if f.2.next_vector_index ≥ 128 then .faulted f.2 w
       else
         let address := f.2.next_memory_address
         match vectorFill address f.1.toNat f.2 with
         | .error vmf => .faulted vmf w
         | .ok vm2 =>
           let vm3 := { vm2 with
             vectors := vm2.vectors.setD vm2.next_vector_index.toNat
               ⟨f.1, address⟩ }
           let vm4 := push vm3 ((vm3.next_vector_index : Int) : Val)
           .cont { vm4 with
             next_memory_address := vm4.next_memory_address + f.1
             next_vector_index := vm4.next_vector_index + 1 } w) := rfl

theorem execOp_dot (vm : VM) (w : World) :
    execOp 9 vm w =
      (let p2 := pop vm
       let p1 := pop p2.2
       let ptr1 := doubleToInt p1.1
       let ptr2 := doubleToInt p2.1
       if ptr1 < 0 ∨ ptr1 ≥ p1.2.next_vector_index ∨
           ptr2 < 0 ∨ ptr2 ≥ p1.2.next_vector_index then .faulted p1.2 w
       else
         let vec1 := p1.2.vectors.getD ptr1.toNat ⟨0, 0⟩
         let vec2 := p1.2.vectors.getD ptr2.toNat ⟨0, 0⟩
         if vec1.size ≠ vec2.size then .faulted p1.2 w
         else .cont (push p1.2 (dotProd p1.2 vec1.address vec2.address
           vec1.size.toNat)) w) := rfl

theorem execOp_eqop (vm : VM) (w : World) :
    execOp 13 vm w =
      .cont (push (pop (pop vm).2).2
        (if (pop (pop vm).2).1 - (pop vm).1 < epsilon ∧
            (pop vm).1 - (pop (pop vm).2).1 < epsilon then 1 else 0)) w := rfl

theorem execOp_save (vm : VM) (w : World) :
    execOp 18 vm w = .cont (execSaveFile vm w).1 (execSaveFile vm w).2 := rfl

theorem execOp_loadfile (vm : VM) (w : World) :
    execOp 19 vm w = .cont (execLoadFile vm w).1 (execLoadFile vm w).2 := rfl

theorem execOp_halt (vm : VM) (w : World) :
    execOp 20 vm w = .halted vm w := rfl

theorem vectorFill_ok_int (A : Int) (hA0 : 0 ≤ A) (k : Nat) (vm : VM)
    (hm : vm.memory.size = 1024) (hsp : (k : Int) ≤ vm.sp + 1)
    (hAk : A + k ≤ 1024) :
    ∃ M : Array Val,
      vectorFill A k vm = .ok { vm with
        sp := vm.sp - k
        memory := M } ∧
      M.size = 1024 ∧
      (∀ j : Nat, j < k →
        M.getD (A.toNat + j) 0 = vm.stack.getD (vm.sp - k + 1 + j).toNat 0) ∧
      (∀ m : Nat, m < A.toNat ∨ A.toNat + k ≤ m →
        M.getD m 0 = vm.memory.getD m 0) := by
  obtain ⟨B, rfl⟩ : ∃ B : Nat, A = (B : Int) := ⟨A.toNat, by omega⟩
  rw [show ((B : Int)).toNat = B from by omega]
  exact vectorFill_ok B k vm hm hsp (by omega)

theorem vector_step (vm : VM) (w : World) (n : Int)
    (hmem : vm.memory.size = 1024)
    (hip0 : 0 ≤ vm.ip) (hip : vm.ip + 5 ≤ vm.code_size)
    (hop : byteAt vm vm.ip.toNat = 8)
    (hn : intOperandAt vm (vm.ip.toNat + 1) = n)
    (hsp : vm.sp ≤ 1023)
    (hnma : 0 ≤ vm.next_memory_address) (hnvi : 0 ≤ vm.next_vector_index)
    (h1 : 0 < n) (h2 : vm.next_memory_address + n ≤ 1024)
    (h3 : vm.next_vector_index < 128) (h4 : n ≤ vm.sp + 1) :
    ∃ M : Array Val,
      step vm w = .cont { vm with
        stack := vm.stack.setD (vm.sp - n + 1).toNat
          ((vm.next_vector_index : Int) : Val)
        sp := vm.sp - n + 1
        ip := vm.ip + 5
        memory := M
        vectors := vm.vectors.setD vm.next_vector_index.toNat
          ⟨n, vm.next_memory_address⟩
        next_vector_index := vm.next_vector_index + 1
        next_memory_address := vm.next_memory_address + n } w ∧
      M.size = 1024 ∧
      (∀ j : Nat, (j : Int) < n →
        M.getD (vm.next_memory_address.toNat + j) 0
          = vm.stack.getD (vm.sp - n + 1 + j).toNat 0) ∧
      (∀ m : Nat, m < vm.next_memory_address.toNat ∨
          vm.next_memory_address + n ≤ (m : Int) →
        M.getD m 0 = vm.memory.getD m 0) := by
  obtain ⟨N, rfl⟩ : ∃ N : Nat, n = (N : Int) := ⟨n.toNat, by omega⟩
  have hstep1 : step vm w = execOp 8 { vm with ip := vm.ip + 1 } w := by
    rw [step_eq vm w (by omega), hop]
  set vmA : VM := { vm with ip := vm.ip + 1 } with hAdef
  have hfetch : fetch_int vmA = ((N : Int), { vm with ip := vm.ip + 5 }) := by
    rw [fetch_int_eq vmA (by simp only [vmA]; omega)]
    rw [Prod.mk.injEq]
    constructor
    · show intOperandAt vmA vmA.ip.toNat = (N : Int)
      rw [show vmA.ip.toNat = vm.ip.toNat + 1 from by simp only [vmA]; omega]
      exact hn
    · show ({ vmA with ip := vmA.ip + 4 } : VM) = _
      simp only [vmA]
      rw [show vm.ip + 1 + 4 = vm.ip + 5 from by omega]
  rw [hstep1, execOp_vector]
  dsimp only
  rw [hfetch]
  dsimp only
  rw [if_neg (by omega), if_neg (by omega), if_neg (by omega)]
  obtain ⟨M, hfill, hMsz, hins, hout⟩ :=
    vectorFill_ok_int vm.next_memory_address hnma N
      { vm with ip := vm.ip + 5 } hmem
      (by exact show (N : Int) ≤ vm.sp + 1 by omega)
      (by exact show vm.next_memory_address + (N : Int) ≤ 1024 by omega)
  rw [show ((N : Int)).toNat = N from by omega, hfill]
  dsimp only
  rw [push_lt _ _ (by dsimp only; omega)]
  dsimp only
  refine ⟨M, ?_, hMsz, ?_, ?_⟩
  · rw [show vm.sp - (N : Int) + 1 = vm.sp - N + 1 from by omega]
  · intro j hj
    rw [show vm.sp - (N : Int) + 1 + (j : Int) = vm.sp - N + 1 + j from by omega]
    exact hins j (by omega)
  · intro m hm2
    exact hout m (by omega)

theorem vector_step_fault (vm : VM) (w : World) (n : Int)
    (hip0 : 0 ≤ vm.ip) (hip : vm.ip + 5 ≤ vm.code_size)
    (hop : byteAt vm vm.ip.toNat = 8)
    (hn : intOperandAt vm (vm.ip.toNat + 1) = n)
    (hsp0 : -1 ≤ vm.sp)
    (hf : n ≤ 0 ∨ vm.next_memory_address + n > 1024 ∨
      128 ≤ vm.next_vector_index ∨ vm.sp + 1 < n) :
    ∃ vmf, step vm w = .faulted vmf w ∧
      ∀ fuel, run (fuel + 1) vm w = some (.faulted, vmf, w) := by
  suffices hsf : ∃ vmf, step vm w = StepResult.faulted vmf w by
    obtain ⟨vmf, h⟩ := hsf
    exact ⟨vmf, h, fun fuel => run_of_faulted fuel vm vmf w w (by omega) h⟩
  have hstep1 : step vm w = execOp 8 { vm with ip := vm.ip + 1 } w := by
    rw [step_eq vm w (by omega), hop]
  set vmA : VM := { vm with ip := vm.ip + 1 } with hAdef
  have hfetch : fetch_int vmA = (n, { vm with ip := vm.ip + 5 }) := by
    rw [fetch_int_eq vmA (by simp only [vmA]; omega)]
    rw [Prod.mk.injEq]
    constructor
    · show intOperandAt vmA vmA.ip.toNat = n
      rw [show vmA.ip.toNat = vm.ip.toNat + 1 from by simp only [vmA]; omega]
      exact hn
    · show ({ vmA with ip := vmA.ip + 4 } : VM) = _
      simp only [vmA]
      rw [show vm.ip + 1 + 4 = vm.ip + 5 from by omega]
  rw [hstep1, execOp_vector]
  dsimp only
  rw [hfetch]
  dsimp only
  by_cases hg1 : n ≤ 0 ∨ n > 1024
  · rw [if_pos hg1]
    exact ⟨_, rfl⟩
  rw [if_neg hg1]
  by_cases hg2 : vm.next_memory_address + n > 1024
  · rw [if_pos hg2]
    exact ⟨_, rfl⟩
  rw [if_neg hg2]
  by_cases hg3 : vm.next_vector_index ≥ 128
  · rw [if_pos hg3]
    exact ⟨_, rfl⟩
  rw [if_neg hg3]
  have hsp4 : vm.sp + 1 < n := by
    rcases hf with h | h | h | h
    · omega
    · omega
    · omega
    · exact h
  obtain ⟨vmf, hvf⟩ := vectorFill_err vm.next_memory_address n.toNat
    { vm with ip := vm.ip + 5 }
    (by exact show (-1 : Int) ≤ vm.sp by omega)
    (by exact show vm.sp + 1 < ((n.toNat : Nat) : Int) by omega)
  rw [hvf]
  exact ⟨vmf, rfl⟩

/-- Claim C1: for every VM state and a VECTOR instruction whose 4-byte
operand decodes to `n`, if `0 < n`, `next_memory_address + n ≤ 1024`,
`next_vector_index < 128` and at least `n` values are on the stack, then
executing VECTOR pops exactly `n` values and writes them into
`memory[next_memory_address .. next_memory_address + n - 1]` in original
stack order (the last value popped — originally the deepest of the `n` —
lands at the lowest address, the old top of stack at the highest),
records the descriptor `{size = n, address = old next_memory_address}`
at slot `next_vector_index`, pushes that slot index as a float, and
advances `next_memory_address` by `n` and `next_vector_index` by 1.
If `n ≤ 0`, or `n` exceeds the remaining memory, or the vector table is
full, or fewer than `n` values are on the stack, the engine faults
fatally and the loop stops at once. -/
theorem vector_instruction_correct (vm : VM) (w : World) (n : Int)
    (hmem : vm.memory.size = 1024)
    (hip0 : 0 ≤ vm.ip) (hip : vm.ip + 5 ≤ vm.code_size)
    (hop : byteAt vm vm.ip.toNat = 8)
    (hn : intOperandAt vm (vm.ip.toNat + 1) = n)
    (hsp0 : -1 ≤ vm.sp) (hsp : vm.sp ≤ 1023)
    (hnma : 0 ≤ vm.next_memory_address) (hnvi : 0 ≤ vm.next_vector_index) :
    (0 < n → vm.next_memory_address + n ≤ 1024 → vm.next_vector_index < 128 →
      n ≤ vm.sp + 1 →
      ∃ M : Array Val,
        step vm w = .cont { vm with
          stack := vm.stack.setD (vm.sp - n + 1).toNat
            ((vm.next_vector_index : Int) : Val)
          sp := vm.sp - n + 1
          ip := vm.ip + 5
          memory := M
          vectors := vm.vectors.setD vm.next_vector_index.toNat
            ⟨n, vm.next_memory_address⟩
          next_vector_index := vm.next_vector_index + 1
          next_memory_address := vm.next_memory_address + n } w ∧
        M.size = 1024 ∧
        (∀ j : Nat, (j : Int) < n →
          M.getD (vm.next_memory_address.toNat + j) 0
            = vm.stack.getD (vm.sp - n + 1 + j).toNat 0) ∧
        (∀ m : Nat, m < vm.next_memory_address.toNat ∨
            vm.next_memory_address + n ≤ (m : Int) →
          M.getD m 0 = vm.memory.getD m 0)) ∧
    (n ≤ 0 ∨ vm.next_memory_address + n > 1024 ∨
        128 ≤ vm.next_vector_index ∨ vm.sp + 1 < n →
      ∃ vmf, step vm w = .faulted vmf w ∧
        ∀ fuel, run (fuel + 1) vm w = some (.faulted, vmf, w)) := by
  constructor
  · intro h1 h2 h3 h4
    exact vector_step vm w n hmem hip0 hip hop hn hsp hnma hnvi h1 h2 h3 h4
  · intro hf
    exact vector_step_fault vm w n hip0 hip hop hn hsp0 hf

set_option maxRecDepth 4000 in
theorem vector_instruction_correct_witness :
    (∃ vm1, step vmV w0 = StepResult.cont vm1 w0) ∧
    (∃ vmf, step vmVf w0 = StepResult.faulted vmf w0) := by
  constructor
  · obtain ⟨M, hstep, -⟩ :=
      (vector_instruction_correct vmV w0 2 (by simp [vmV, vm_create])
        (by decide) (by decide) (by decide) (by decide) (by decide)
        (by decide) (by decide) (by decide)).1
        (by decide) (by decide) (by decide) (by decide)
    exact ⟨_, hstep⟩
  · obtain ⟨vmf, hstep, -⟩ :=
      (vector_instruction_correct vmVf w0 2 (by simp [vmVf, vmV, vm_create])
        (by decide) (by decide) (by decide) (by decide) (by decide)
        (by decide) (by decide) (by decide)).2 (by decide)
    exact ⟨vmf, hstep⟩

theorem doubleToInt_intCast (k : Int) : doubleToInt ((k : Int) : Val) = k := by
  simp [doubleToInt]

theorem dotProd_eq_sum (vm : VM) (a1 a2 : Int) (k : Nat) :
    dotProd vm a1 a2 k = ∑ i ∈ Finset.range k,
      vm.memory.getD (a1 + (i : Int)).toNat 0 *
        vm.memory.getD (a2 + (i : Int)).toNat 0 := by
  induction k with
  | zero => simp [dotProd]
  | succ k ih =>
    unfold dotProd at ih ⊢
    rw [List.range_succ, List.foldl_append, ih, Finset.sum_range_succ]
    simp

theorem pop_fst (vm : VM) (h : 0 ≤ vm.sp) :
    (pop vm).1 = vm.stack.getD vm.sp.toNat 0 := by
  rw [pop_nonneg vm h]

theorem pop_snd (vm : VM) (h : 0 ≤ vm.sp) :
    (pop vm).2 = { vm with sp := vm.sp - 1 } := by
  rw [pop_nonneg vm h]

theorem dot_step (vm : VM) (w : World) (p1 p2 : Int)
    (hip0 : 0 ≤ vm.ip) (hip : vm.ip < vm.code_size)
    (hop : byteAt vm vm.ip.toNat = 9)
    (hsp : 1 ≤ vm.sp) (hsp2 : vm.sp ≤ 1023)
    (hp1 : doubleToInt (vm.stack.getD (vm.sp - 1).toNat 0) = p1)
    (hp2 : doubleToInt (vm.stack.getD vm.sp.toNat 0) = p2) :
    (p1 < 0 ∨ p1 ≥ vm.next_vector_index ∨ p2 < 0 ∨ p2 ≥ vm.next_vector_index →
      step vm w = .faulted { vm with
        sp := vm.sp - 2
        ip := vm.ip + 1 } w) ∧
    (0 ≤ p1 → p1 < vm.next_vector_index → 0 ≤ p2 → p2 < vm.next_vector_index →
      ((vm.vectors.getD p1.toNat ⟨0, 0⟩).size ≠
          (vm.vectors.getD p2.toNat ⟨0, 0⟩).size →
        step vm w = .faulted { vm with
          sp := vm.sp - 2
          ip := vm.ip + 1 } w) ∧
      ((vm.vectors.getD p1.toNat ⟨0, 0⟩).size =
          (vm.vectors.getD p2.toNat ⟨0, 0⟩).size →
        step vm w = .cont { vm with
          stack := vm.stack.setD (vm.sp - 1).toNat
            (dotProd vm (vm.vectors.getD p1.toNat ⟨0, 0⟩).address
              (vm.vectors.getD p2.toNat ⟨0, 0⟩).address
              (vm.vectors.getD p1.toNat ⟨0, 0⟩).size.toNat)
          sp := vm.sp - 1
          ip := vm.ip + 1 } w)) := by
  have hstep1 : step vm w = execOp 9 { vm with ip := vm.ip + 1 } w := by
    rw [step_eq vm w hip, hop]
  rw [hstep1, execOp_dot]
  dsimp only
  rw [pop_snd { vm with ip := vm.ip + 1 } (by exact show (0 : Int) ≤ vm.sp by omega),
    pop_fst { vm with ip := vm.ip + 1 } (by exact show (0 : Int) ≤ vm.sp by omega)]
  dsimp only
  rw [pop_snd _ (by exact show (0 : Int) ≤ vm.sp - 1 by omega),
    pop_fst _ (by exact show (0 : Int) ≤ vm.sp - 1 by omega)]
  dsimp only
  rw [hp1, hp2]
  rw [show vm.sp - 1 - 1 = vm.sp - 2 from by omega]
  constructor
  · intro hbad
    rw [if_pos (by tauto)]
  · intro h1 h2 h3 h4
    rw [if_neg (by omega)]
    constructor
    · intro hne
      rw [if_pos hne]
    · intro heq
      rw [if_neg (by exact fun h => h heq)]
      rw [push_lt _ _ (by exact show vm.sp - 2 < 1023 by omega)]
      dsimp only
      rw [show vm.sp - 2 + 1 = vm.sp - 1 from by omega]
      rfl

theorem stepsN_succ (k : Nat) (vm : VM) (w : World) :
    stepsN (k + 1) vm w =
      if vm.ip < vm.code_size then
        match step vm w with
        | .cont vm1 w1 => stepsN k vm1 w1
        | _ => none
      else none := rfl

theorem stepsN_cont (k : Nat) (vm vm1 : VM) (w w1 : World)
    (hg : vm.ip < vm.code_size) (hs : step vm w = .cont vm1 w1) :
    stepsN (k + 1) vm w = stepsN k vm1 w1 := by
  rw [stepsN_succ, if_pos hg, hs]

theorem stepsN_add (m1 m2 : Nat) (vm : VM) (w : World) :
    stepsN (m1 + m2) vm w =
      (stepsN m1 vm w).bind fun p => stepsN m2 p.1 p.2 := by
  induction m1 generalizing vm w with
  | zero => rw [Nat.zero_add]; rfl
  | succ k ih =>
    rw [show k + 1 + m2 = k + m2 + 1 from by omega, stepsN_succ (k + m2),
      stepsN_succ k]
    by_cases hg : vm.ip < vm.code_size
    · rw [if_pos hg, if_pos hg]
      rcases hstep : step vm w with ⟨vm1, w1⟩ | ⟨vm1, w1⟩ | ⟨vm1, w1⟩
      · exact ih vm1 w1
      · rfl
      · rfl
    · rw [if_neg hg, if_neg hg]
      rfl

theorem load_block : ∀ (m : Nat) (g : Nat) (vm : VM) (w : World) (b : Nat → Val),
    (∀ i : Nat, i < m → byteAt vm (vm.ip.toNat + 5 * i) = 7 ∧
      intOperandAt vm (vm.ip.toNat + 5 * i + 1) = ((g + i : Nat) : Int)) →
    0 ≤ vm.ip → vm.ip + 5 * m ≤ vm.code_size →
    g + m ≤ 256 →
    (∀ i : Nat, i < m → vm.globals.getD (g + i) 0 = b i) →
    vm.sp + m ≤ 1023 → -1 ≤ vm.sp → vm.sp + (m : Int) < vm.stack.size →
    ∃ S : Array Val,
      stepsN m vm w = some ({ vm with
        stack := S
        sp := vm.sp + m
        ip := vm.ip + 5 * m }, w) ∧
      S.size = vm.stack.size ∧
      (∀ j : Nat, j < m → S.getD (vm.sp + 1 + (j : Int)).toNat 0 = b j) ∧
      (∀ t : Nat, (t : Int) ≤ vm.sp → S.getD t 0 = vm.stack.getD t 0) := by
  intro m
  induction m with
  | zero =>
    intro g vm w b _ _ _ _ _ _ _ _
    refine ⟨vm.stack, ?_, rfl, fun j hj => absurd hj (Nat.not_lt_zero j),
      fun t _ => rfl⟩
    show some (vm, w) = _
    rw [show vm.sp + ((0 : Nat) : Int) = vm.sp from by omega,
      show vm.ip + 5 * ((0 : Nat) : Int) = vm.ip from by omega]
  | succ k ih =>
    intro g vm w b hcode hip0 hip hg hb hsp1 hsp0 hstksz
    -- the first LOAD
    have hb0 : byteAt vm vm.ip.toNat = 7 := by
      have h := (hcode 0 (by omega)).1
      rwa [show vm.ip.toNat + 5 * 0 = vm.ip.toNat from by omega] at h
    have hstep1 : step vm w = execOp 7 { vm with ip := vm.ip + 1 } w := by
      rw [step_eq vm w (by omega), hb0]
    have hfetch : fetch_int { vm with ip := vm.ip + 1 } =
        ((g : Int), { vm with ip := vm.ip + 5 }) := by
      rw [fetch_int_eq _ (by exact show vm.ip + 1 + 4 ≤ vm.code_size by omega)]
      rw [Prod.mk.injEq]
      constructor
      · show intOperandAt { vm with ip := vm.ip + 1 }
          ({ vm with ip := vm.ip + 1 } : VM).ip.toNat = (g : Int)
        have h0 := (hcode 0 (by omega)).2
        rw [show ({ vm with ip := vm.ip + 1 } : VM).ip.toNat
            = vm.ip.toNat + 5 * 0 + 1 from by simp only; omega]
        exact h0.trans (by norm_num)
      · show ({ vm with ip := vm.ip + 1 + 4 } : VM) = _
        rw [show vm.ip + 1 + 4 = vm.ip + 5 from by omega]
    have hload : step vm w = .cont { vm with
        stack := vm.stack.setD (vm.sp + 1).toNat (b 0)
        sp := vm.sp + 1
        ip := vm.ip + 5 } w := by
      rw [hstep1, execOp_load, hfetch]
      dsimp only
      rw [if_neg (by omega)]
      rw [push_lt _ _ (by exact show vm.sp < 1023 by omega)]
      dsimp only
      rw [show ((g : Int)).toNat = g from by omega,
        show vm.globals.getD g 0 = b 0 from by simpa using hb 0 (by omega)]
    set vm1 : VM := { vm with
      stack := vm.stack.setD (vm.sp + 1).toNat (b 0)
      sp := vm.sp + 1
      ip := vm.ip + 5 } with hvm1
    obtain ⟨S, hsteps, hSsz, hS1, hS2⟩ := ih (g + 1) vm1 w (fun j => b (j + 1))
      (by
        intro i hi
        have hci := hcode (i + 1) (by omega)
        constructor
        · rw [show vm1.ip.toNat + 5 * i = vm.ip.toNat + 5 * (i + 1) from by
            simp only [vm1]; omega]
          exact hci.1
        · rw [show vm1.ip.toNat + 5 * i + 1 = vm.ip.toNat + 5 * (i + 1) + 1 from by
            simp only [vm1]; omega]
          have h2 : intOperandAt vm (vm.ip.toNat + 5 * (i + 1) + 1)
              = ((g + 1 + i : Nat) : Int) := by
            rw [hci.2]
            congr 1
            omega
          exact h2)
      (by exact show (0 : Int) ≤ vm.ip + 5 by omega)
      (by exact show vm.ip + 5 + 5 * k ≤ vm.code_size by omega)
      (by omega)
      (by
        intro i hi
        show vm.globals.getD (g + 1 + i) 0 = b (i + 1)
        rw [show g + 1 + i = g + (i + 1) from by omega]
        exact hb (i + 1) (by omega))
      (by exact show vm.sp + 1 + k ≤ 1023 by omega)
      (by exact show (-1 : Int) ≤ vm.sp + 1 by omega)
      (by
        rw [show vm1.stack.size = vm.stack.size from by
          simp only [vm1]; rw [Array.size_setD]]
        exact show vm.sp + 1 + (k : Int) < vm.stack.size by omega)
    refine ⟨S, ?_, ?_, ?_, ?_⟩
    · rw [stepsN_cont k vm vm1 w w (by omega) hload, hsteps]
      simp only [vm1]
      rw [show vm.sp + 1 + (k : Int) = vm.sp + ((k + 1 : Nat) : Int) from by omega,
        show vm.ip + 5 + 5 * (k : Int) = vm.ip + 5 * ((k + 1 : Nat) : Int) from by
          push_cast; ring]
    · rw [hSsz]
      simp only [vm1]
      rw [Array.size_setD]
    · intro j hj
      rcases Nat.eq_zero_or_pos j with hj0 | hjpos
      · subst hj0
        have ht := hS2 (vm.sp + 1).toNat
          (by exact show (((vm.sp + 1).toNat : Nat) : Int) ≤ vm.sp + 1 from by omega)
        rw [show (vm.sp + 1 + ((0 : Nat) : Int)).toNat = (vm.sp + 1).toNat from by
          omega]
        rw [ht]
        simp only [vm1]
        rw [getD_setD_self _ _ _ _ (by omega)]
      · obtain ⟨j', rfl⟩ : ∃ j', j = j' + 1 := ⟨j - 1, by omega⟩
        have := hS1 j' (by omega)
        rw [show vm.sp + 1 + ((j' + 1 : Nat) : Int)
            = vm1.sp + 1 + (j' : Int) from by simp only [vm1]; push_cast; ring]
        exact this
    · intro t ht
      rw [hS2 t (by exact show ((t : Nat) : Int) ≤ vm.sp + 1 from by omega)]
      simp only [vm1]
      rw [getD_setD_ne _ _ _ _ _ (by omega)]

theorem vector_dot_composition (vm : VM) (w : World) (n g : Nat) (a b : Nat → Val)
    (hmem : vm.memory.size = 1024)
    (hvsz : vm.vectors.size = 128)
    (hstk : vm.sp + 2 ≤ (vm.stack.size : Int))
    (hip0 : 0 ≤ vm.ip) (hip : vm.ip + 11 + 5 * n ≤ vm.code_size)
    (hc1 : byteAt vm vm.ip.toNat = 8)
    (hc2 : intOperandAt vm (vm.ip.toNat + 1) = (n : Int))
    (hc3 : ∀ i : Nat, i < n → byteAt vm (vm.ip.toNat + 5 + 5 * i) = 7 ∧
      intOperandAt vm (vm.ip.toNat + 5 + 5 * i + 1) = ((g + i : Nat) : Int))
    (hc4 : byteAt vm (vm.ip.toNat + 5 + 5 * n) = 8)
    (hc5 : intOperandAt vm (vm.ip.toNat + 6 + 5 * n) = (n : Int))
    (hc6 : byteAt vm (vm.ip.toNat + 10 + 5 * n) = 9)
    (hn : 0 < n)
    (ha : ∀ i : Nat, i < n →
      vm.stack.getD (vm.sp - n + 1 + (i : Int)).toNat 0 = a i)
    (hgn : g + n ≤ 256)
    (hb : ∀ i : Nat, i < n → vm.globals.getD (g + i) 0 = b i)
    (hsp0 : (n : Int) ≤ vm.sp + 1) (hsp : vm.sp ≤ 1022)
    (hnma : 0 ≤ vm.next_memory_address) (hnvi : 0 ≤ vm.next_vector_index)
    (hroom : vm.next_memory_address + 2 * n ≤ 1024)
    (hvroom : vm.next_vector_index ≤ 126) :
    ∃ vmF : VM, stepsN (n + 3) vm w = some (vmF, w) ∧
      vmF.sp = vm.sp - n + 1 ∧
      vmF.stack.getD vmF.sp.toNat 0 = ∑ i ∈ Finset.range n, a i * b i := by
  -- step A: the first VECTOR
  obtain ⟨M1, hstepA, hM1sz, hM1in, hM1out⟩ :=
    vector_step vm w (n : Int) hmem hip0 (by omega) hc1 hc2 (by omega) hnma hnvi
      (by omega) (by omega) (by omega) (by omega)
  set vm1 : VM := { vm with
    stack := vm.stack.setD (vm.sp - (n : Int) + 1).toNat
      ((vm.next_vector_index : Int) : Val)
    sp := vm.sp - (n : Int) + 1
    ip := vm.ip + 5
    memory := M1
    vectors := vm.vectors.setD vm.next_vector_index.toNat
      ⟨(n : Int), vm.next_memory_address⟩
    next_vector_index := vm.next_vector_index + 1
    next_memory_address := vm.next_memory_address + (n : Int) } with hvm1
  -- step B: the n LOAD instructions
  obtain ⟨S2, hstepB, hS2sz, hS2top, hS2keep⟩ := load_block n g vm1 w b
    (by
      intro i hi
      have h := hc3 i hi
      constructor
      · rw [show vm1.ip.toNat + 5 * i = vm.ip.toNat + 5 + 5 * i from by
          simp only [vm1]; omega]
        exact h.1
      · rw [show vm1.ip.toNat + 5 * i + 1 = vm.ip.toNat + 5 + 5 * i + 1 from by
          simp only [vm1]; omega]
        exact h.2)
    (by exact show (0 : Int) ≤ vm.ip + 5 from by omega)
    (by exact show vm.ip + 5 + 5 * (n : Int) ≤ vm.code_size from by omega)
    hgn
    (by intro i hi; exact hb i hi)
    (by exact show vm.sp - (n : Int) + 1 + (n : Int) ≤ 1023 from by omega)
    (by exact show (-1 : Int) ≤ vm.sp - (n : Int) + 1 from by omega)
    (by
      rw [show vm1.stack.size = vm.stack.size from by
        simp only [vm1]; rw [Array.size_setD]]
      exact show vm.sp - (n : Int) + 1 + (n : Int) < vm.stack.size from by omega)
  set vm2 : VM := { vm1 with
    stack := S2
    sp := vm1.sp + (n : Int)
    ip := vm1.ip + 5 * (n : Int) } with hvm2
  -- step C: the second VECTOR
  have hop2 : byteAt vm2 vm2.ip.toNat = 8 := by
    rw [show vm2.ip.toNat = vm.ip.toNat + 5 + 5 * n from by
      simp only [vm2, vm1]; omega]
    exact hc4
  have hn2 : intOperandAt vm2 (vm2.ip.toNat + 1) = (n : Int) := by
    rw [show vm2.ip.toNat + 1 = vm.ip.toNat + 6 + 5 * n from by
      simp only [vm2, vm1]; omega]
    exact hc5
  obtain ⟨M2, hstepC, hM2sz, hM2in, hM2out⟩ :=
    vector_step vm2 w (n : Int)
      (by exact show M1.size = 1024 from hM1sz)
      (by exact show (0 : Int) ≤ vm.ip + 5 + 5 * (n : Int) from by positivity)
      (by exact show vm.ip + 5 + 5 * (n : Int) + 5 ≤ vm.code_size from by omega)
      hop2 hn2
      (by exact show vm.sp - (n : Int) + 1 + (n : Int) ≤ 1023 from by omega)
      (by exact show (0 : Int) ≤ vm.next_memory_address + (n : Int) from by omega)
      (by exact show (0 : Int) ≤ vm.next_vector_index + 1 from by omega)
      (by omega)
      (by
        exact show vm.next_memory_address + (n : Int) + (n : Int) ≤ 1024 from
          by omega)
      (by exact show vm.next_vector_index + 1 < 128 from by omega)
      (by exact show (n : Int) ≤ vm.sp - (n : Int) + 1 + (n : Int) + 1 from by omega)
  set vm3 : VM := { vm2 with
    stack := S2.setD (vm2.sp - (n : Int) + 1).toNat
      ((vm2.next_vector_index : Int) : Val)
    sp := vm2.sp - (n : Int) + 1
    ip := vm2.ip + 5
    memory := M2
    vectors := vm2.vectors.setD vm2.next_vector_index.toNat
      ⟨(n : Int), vm2.next_memory_address⟩
    next_vector_index := vm2.next_vector_index + 1
    next_memory_address := vm2.next_memory_address + (n : Int) } with hvm3
  -- field-value equations usable by omega
  have e1 : vm1.sp = vm.sp - (n : Int) + 1 := rfl
  have e2 : vm2.sp = vm1.sp + (n : Int) := rfl
  have e7 : vm3.sp = vm2.sp - (n : Int) + 1 := rfl
  have envi2 : vm2.next_vector_index = vm.next_vector_index + 1 := rfl
  have enma2 : vm2.next_memory_address = vm.next_memory_address + (n : Int) := rfl
  have hS2sz' : S2.size = vm.stack.size := by
    rw [hS2sz]
    simp only [vm1]
    rw [Array.size_setD]
  have hstk1 : vm1.stack = vm.stack.setD (vm.sp - (n : Int) + 1).toNat
      ((vm.next_vector_index : Int) : Val) := rfl
  have hstk3 : vm3.stack = S2.setD (vm2.sp - (n : Int) + 1).toNat
      ((vm2.next_vector_index : Int) : Val) := rfl
  have hsz3 : vm3.stack.size = vm.stack.size := by
    rw [hstk3, Array.size_setD, hS2sz']
  -- step D: the DOT
  have hidx1 : (vm3.sp - 1).toNat = (vm.sp - (n : Int) + 1).toNat := by
    rw [e7, e2, e1]
    omega
  have hp1 : doubleToInt (vm3.stack.getD (vm3.sp - 1).toNat 0)
      = vm.next_vector_index := by
    rw [hidx1, hstk3]
    rw [getD_setD_ne _ _ _ _ _ (by rw [e2, e1]; omega)]
    rw [hS2keep _ (by rw [e1]; omega)]
    rw [hstk1]
    rw [getD_setD_self _ _ _ _ (by omega)]
    exact doubleToInt_intCast _
  have hp2 : doubleToInt (vm3.stack.getD vm3.sp.toNat 0)
      = vm.next_vector_index + 1 := by
    have hidx2 : vm3.sp.toNat = (vm2.sp - (n : Int) + 1).toNat := rfl
    rw [hidx2, hstk3]
    rw [getD_setD_self _ _ _ _ (by rw [hS2sz', e2, e1]; omega)]
    rw [envi2]
    exact doubleToInt_intCast _
  obtain ⟨hdfault, hdok⟩ := dot_step vm3 w
    vm.next_vector_index (vm.next_vector_index + 1)
    (by exact show (0 : Int) ≤ vm.ip + 5 + 5 * (n : Int) + 5 from by omega)
    (by exact show vm.ip + 5 + 5 * (n : Int) + 5 < vm.code_size from by omega)
    (by
      rw [show vm3.ip.toNat = vm.ip.toNat + 10 + 5 * n from by
        simp only [vm3, vm2, vm1]; omega]
      exact hc6)
    (by rw [e7, e2, e1]; omega)
    (by rw [e7, e2, e1]; omega)
    hp1 hp2
  have hvec3 : vm3.vectors =
      (vm.vectors.setD vm.next_vector_index.toNat
        ⟨(n : Int), vm.next_memory_address⟩).setD
        (vm.next_vector_index + 1).toNat
        ⟨(n : Int), vm.next_memory_address + (n : Int)⟩ := rfl
  have hv1 : vm3.vectors.getD vm.next_vector_index.toNat ⟨0, 0⟩
      = ⟨(n : Int), vm.next_memory_address⟩ := by
    rw [hvec3, getD_setD_ne _ _ _ _ _ (by omega),
      getD_setD_self _ _ _ _ (by rw [hvsz]; omega)]
  have hv2 : vm3.vectors.getD (vm.next_vector_index + 1).toNat ⟨0, 0⟩
      = ⟨(n : Int), vm.next_memory_address + (n : Int)⟩ := by
    rw [hvec3, getD_setD_self _ _ _ _ (by rw [Array.size_setD, hvsz]; omega)]
  have hstepD := hdok (by omega)
    (by exact show vm.next_vector_index < vm.next_vector_index + 1 + 1 from by omega)
    (by omega)
    (by
      exact show vm.next_vector_index + 1 < vm.next_vector_index + 1 + 1 from
        by omega)
  have hstepD2 := hstepD.2 (by rw [hv1, hv2])
  rw [hv1, hv2] at hstepD2
  dsimp only at hstepD2
  rw [show ((n : Nat) : Int).toNat = n from by omega] at hstepD2
  set vm4 : VM := { vm3 with
    stack := vm3.stack.setD (vm3.sp - 1).toNat
      (dotProd vm3 vm.next_memory_address
        (vm.next_memory_address + (n : Int)) n)
    sp := vm3.sp - 1
    ip := vm3.ip + 1 } with hvm4
  -- assemble the chain
  have hchain : stepsN (n + 3) vm w = some (vm4, w) := by
    rw [show n + 3 = n + 2 + 1 from rfl]
    rw [stepsN_cont (n + 2) vm vm1 w w (by omega) hstepA]
    rw [stepsN_add n 2, hstepB]
    show stepsN 2 vm2 w = _
    rw [stepsN_cont 1 vm2 vm3 w w
      (by exact show vm.ip + 5 + 5 * (n : Int) < vm.code_size from by omega)
      hstepC]
    rw [stepsN_cont 0 vm3 vm4 w w
      (by exact show vm.ip + 5 + 5 * (n : Int) + 5 < vm.code_size from by omega)
      hstepD2]
    rfl
  refine ⟨vm4, hchain, ?_, ?_⟩
  · rw [show vm4.sp = vm3.sp - 1 from rfl, e7, e2, e1]
    omega
  · rw [show vm4.stack = vm3.stack.setD (vm3.sp - 1).toNat
      (dotProd vm3 vm.next_memory_address
        (vm.next_memory_address + (n : Int)) n) from rfl]
    rw [show vm4.sp.toNat = (vm3.sp - 1).toNat from rfl]
    rw [getD_setD_self _ _ _ _ (by rw [hsz3, e7, e2, e1]; omega)]
    rw [dotProd_eq_sum]
    refine Finset.sum_congr rfl ?_
    intro i hi
    have hi' : i < n := Finset.mem_range.mp hi
    have hmm3 : vm3.memory = M2 := rfl
    have hmm2 : vm2.memory = M1 := rfl
    congr 1
    · rw [hmm3]
      rw [hM2out _ (by rw [enma2]; omega)]
      rw [hmm2]
      rw [show (vm.next_memory_address + (i : Int)).toNat
        = vm.next_memory_address.toNat + i from by omega]
      rw [hM1in i (by exact_mod_cast hi')]
      exact ha i hi'
    · rw [hmm3]
      rw [show (vm.next_memory_address + (n : Int) + (i : Int)).toNat
        = vm2.next_memory_address.toNat + i from by rw [enma2]; omega]
      rw [hM2in i (by exact_mod_cast hi')]
      rw [show vm2.stack = S2 from rfl]
      rw [show (vm2.sp - (n : Int) + 1 + (i : Int)).toNat
        = (vm1.sp + 1 + (i : Int)).toNat from by rw [e2]; omega]
      exact hS2top i hi'

/-- Claim C2: executing DOT pops `ptr2` then `ptr1` (converted to
integer indices by truncation); if either index is outside
`[0, next_vector_index)` the engine faults fatally; if the two
descriptors' sizes differ it faults fatally; otherwise it pushes the
left-to-right sum of `memory[addr1+i] * memory[addr2+i]` over the shared
size.  In particular (second conjunct) a VECTOR of size `n` taking the
`a`-values, `n` loads of the `b`-values, a second VECTOR of size `n` and
an immediately following DOT leave the dot product `Σ aᵢ·bᵢ` on top of
the stack. -/
theorem dot_instruction_correct :
    (∀ (vm : VM) (w : World) (p1 p2 : Int),
      0 ≤ vm.ip → vm.ip < vm.code_size →
      byteAt vm vm.ip.toNat = 9 →
      1 ≤ vm.sp → vm.sp ≤ 1023 →
      doubleToInt (vm.stack.getD (vm.sp - 1).toNat 0) = p1 →
      doubleToInt (vm.stack.getD vm.sp.toNat 0) = p2 →
      (p1 < 0 ∨ p1 ≥ vm.next_vector_index ∨ p2 < 0 ∨
          p2 ≥ vm.next_vector_index →
        step vm w = .faulted { vm with
          sp := vm.sp - 2
          ip := vm.ip + 1 } w) ∧
      (0 ≤ p1 → p1 < vm.next_vector_index → 0 ≤ p2 →
        p2 < vm.next_vector_index →
        ((vm.vectors.getD p1.toNat ⟨0, 0⟩).size ≠
            (vm.vectors.getD p2.toNat ⟨0, 0⟩).size →
          step vm w = .faulted { vm with
            sp := vm.sp - 2
            ip := vm.ip + 1 } w) ∧
        ((vm.vectors.getD p1.toNat ⟨0, 0⟩).size =
            (vm.vectors.getD p2.toNat ⟨0, 0⟩).size →
          step vm w = .cont { vm with
            stack := vm.stack.setD (vm.sp - 1).toNat
              (dotProd vm (vm.vectors.getD p1.toNat ⟨0, 0⟩).address
                (vm.vectors.getD p2.toNat ⟨0, 0⟩).address
                (vm.vectors.getD p1.toNat ⟨0, 0⟩).size.toNat)
            sp := vm.sp - 1
            ip := vm.ip + 1 } w))) ∧
    (∀ (vm : VM) (w : World) (n g : Nat) (a b : Nat → Val),
      vm.memory.size = 1024 → vm.vectors.size = 128 →
      vm.sp + 2 ≤ (vm.stack.size : Int) →
      0 ≤ vm.ip → vm.ip + 11 + 5 * n ≤ vm.code_size →
      byteAt vm vm.ip.toNat = 8 →
      intOperandAt vm (vm.ip.toNat + 1) = (n : Int) →
      (∀ i : Nat, i < n → byteAt vm (vm.ip.toNat + 5 + 5 * i) = 7 ∧
        intOperandAt vm (vm.ip.toNat + 5 + 5 * i + 1) = ((g + i : Nat) : Int)) →
      byteAt vm (vm.ip.toNat + 5 + 5 * n) = 8 →
      intOperandAt vm (vm.ip.toNat + 6 + 5 * n) = (n : Int) →
      byteAt vm (vm.ip.toNat + 10 + 5 * n) = 9 →
      0 < n →
      (∀ i : Nat, i < n →
        vm.stack.getD (vm.sp - n + 1 + (i : Int)).toNat 0 = a i) →
      g + n ≤ 256 →
      (∀ i : Nat, i < n → vm.globals.getD (g + i) 0 = b i) →
      (n : Int) ≤ vm.sp + 1 → vm.sp ≤ 1022 →
      0 ≤ vm.next_memory_address → 0 ≤ vm.next_vector_index →
      vm.next_memory_address + 2 * n ≤ 1024 →
      vm.next_vector_index ≤ 126 →
      ∃ vmF : VM, stepsN (n + 3) vm w = some (vmF, w) ∧
        vmF.sp = vm.sp - n + 1 ∧
        vmF.stack.getD vmF.sp.toNat 0 = ∑ i ∈ Finset.range n, a i * b i) := by
  constructor
  · intro vm w p1 p2 h1 h2 h3 h4 h5 h6 h7
    exact dot_step vm w p1 p2 h1 h2 h3 h4 h5 h6 h7
  · intro vm w n g a b h1 h2 h3 h4 h5 h6 h7 h8 h9 h10 h11 h12 h13 h14 h15 h16
      h17 h18 h19 h20 h21
    exact vector_dot_composition vm w n g a b h1 h2 h3 h4 h5 h6 h7 h8 h9 h10
      h11 h12 h13 h14 h15 h16 h17 h18 h19 h20 h21

set_option maxRecDepth 4000 in
theorem dot_instruction_correct_witness :
    (∃ vmr, step vmDot w0 = StepResult.cont vmr w0 ∧
      vmr.stack.getD vmr.sp.toNat 0 = 39) ∧
    (∃ vmF, stepsN 5 vmD w0 = some (vmF, w0) ∧ vmF.sp = 0 ∧
      vmF.stack.getD vmF.sp.toNat 0 = 11) := by
  constructor
  · have h := ((dot_instruction_correct.1 vmDot w0 0 1 (by decide) (by decide)
      (by decide) (by decide) (by decide) (by decide) (by decide)).2
      (by decide) (by decide) (by decide) (by decide)).2 (by decide)
    refine ⟨_, h, ?_⟩
    show dotProd vmDot 0 2 2 = 39
    norm_num [dotProd, List.range_succ]
    rw [show Int.toNat 2 = 2 from rfl, show Int.toNat 3 = 3 from rfl]
    rw [show vmDot.memory[(0 : Nat)]?.getD 0 = (3 : Val) from rfl,
      show vmDot.memory[(1 : Nat)]?.getD 0 = (4 : Val) from rfl,
      show vmDot.memory[(2 : Nat)]?.getD 0 = (5 : Val) from rfl,
      show vmDot.memory[(3 : Nat)]?.getD 0 = (6 : Val) from rfl]
    norm_num
  · obtain ⟨vmF, hs, h1, h2⟩ := dot_instruction_correct.2 vmD w0 2 0
      (fun i => if i = 0 then 1 else 2) (fun i => if i = 0 then 3 else 4)
      (by simp [vmD, vm_create]) (by simp [vmD, vm_create]) (by decide)
      (by decide) (by decide) (by decide) (by decide) (by decide) (by decide)
      (by decide) (by decide) (by decide) (by decide) (by decide) (by decide)
      (by decide) (by decide) (by decide) (by decide) (by decide) (by decide)
    refine ⟨vmF, hs, h1, ?_⟩
    rw [h2]
    norm_num [Finset.sum_range_succ]

theorem WF_push (vm : VM) (v : Val) (h : WF vm) : WF (push vm v) := by
  obtain ⟨h1, h2, h3, h4, h5, h6, h7, h8⟩ := h
  by_cases hc : vm.sp ≥ 1023
  · rw [push, if_pos hc]
    exact ⟨h1, h2, h3, h4, h5, h6, h7, h8⟩
  · rw [push, if_neg hc]
    refine ⟨?_, h2, h3, h4, ?_, ?_, h7, h8⟩
    · exact show (vm.stack.setD (vm.sp + 1).toNat v).size = 1024 from by
        rw [Array.size_setD]; exact h1
    · exact show (-1 : Int) ≤ vm.sp + 1 from by omega
    · exact show vm.sp + 1 ≤ 1023 from by omega

theorem Inv_push (vm : VM) (v : Val) (h : Inv vm) : Inv (push vm v) := by
  unfold push
  split
  · exact h
  · exact h

theorem WF_pop (vm : VM) (h : WF vm) : WF (pop vm).2 := by
  obtain ⟨h1, h2, h3, h4, h5, h6, h7, h8⟩ := h
  by_cases hc : vm.sp < 0
  · rw [pop, if_pos hc]
    exact ⟨h1, h2, h3, h4, h5, h6, h7, h8⟩
  · rw [pop, if_neg hc]
    refine ⟨h1, h2, h3, h4, ?_, ?_, h7, h8⟩
    · exact show (-1 : Int) ≤ vm.sp - 1 from by omega
    · exact show vm.sp - 1 ≤ 1023 from by omega

theorem Inv_pop (vm : VM) (h : Inv vm) : Inv (pop vm).2 := by
  unfold pop
  split
  · exact h
  · exact h

theorem WF_fetch_int (vm : VM) (h : WF vm) : WF (fetch_int vm).2 := by
  unfold fetch_int
  split
  · exact h
  · exact h

theorem Inv_fetch_int (vm : VM) (h : Inv vm) : Inv (fetch_int vm).2 := by
  unfold fetch_int
  split
  · exact h
  · exact h

theorem WF_fetch_double (vm : VM) (h : WF vm) : WF (fetch_double vm).2 := by
  unfold fetch_double
  split
  · exact h
  · exact h

theorem Inv_fetch_double (vm : VM) (h : Inv vm) : Inv (fetch_double vm).2 := by
  unfold fetch_double
  split
  · exact h
  · exact h

theorem execOp_sub (vm : VM) (w : World) :
    execOp 2 vm w =
      .cont (push (pop (pop vm).2).2 ((pop (pop vm).2).1 - (pop vm).1)) w := rfl

theorem execOp_mul (vm : VM) (w : World) :
    execOp 3 vm w =
      .cont (push (pop (pop vm).2).2 ((pop (pop vm).2).1 * (pop vm).1)) w := rfl

theorem execOp_print (vm : VM) (w : World) :
    execOp 5 vm w =
      (if vm.sp ≥ 0 then
        .cont { vm with sp := vm.sp - 1 }
          { w with output := w.output ++ [vm.stack.getD vm.sp.toNat 0] }
       else .cont vm w) := rfl

theorem execOp_relu (vm : VM) (w : World) :
    execOp 10 vm w =
      (if (pop vm).1 < 0 then .cont (push (pop vm).2 0) w
       else .cont (push (pop vm).2 (pop vm).1) w) := rfl

theorem execOp_gt (vm : VM) (w : World) :
    execOp 11 vm w =
      .cont (push (pop (pop vm).2).2
        (if (pop (pop vm).2).1 > (pop vm).1 then 1 else 0)) w := rfl

theorem execOp_lt (vm : VM) (w : World) :
    execOp 12 vm w =
      .cont (push (pop (pop vm).2).2
        (if (pop (pop vm).2).1 < (pop vm).1 then 1 else 0)) w := rfl

theorem execOp_jif (vm : VM) (w : World) :
    execOp 14 vm w =
      (if (pop (fetch_int vm).2).1 = 0 then
        .cont { (pop (fetch_int vm).2).2 with
          ip := (pop (fetch_int vm).2).2.ip + (fetch_int vm).1 } w
       else .cont (pop (fetch_int vm).2).2 w) := rfl

theorem execOp_jump (vm : VM) (w : World) :
    execOp 15 vm w =
      .cont { (fetch_int vm).2 with
        ip := (fetch_int vm).2.ip + (fetch_int vm).1 } w := rfl

theorem execOp_rand (vm : VM) (w : World) :
    execOp 16 vm w =
      .cont (push vm (w.rands.headD 0)) { w with rands := w.rands.tail } := rfl

theorem execOp_input (vm : VM) (w : World) :
    execOp 17 vm w =
      .cont (push vm
        (match w.inputs.head? with
          | some (some q) => q
          | _ => 0)) { w with inputs := w.inputs.tail } := rfl

theorem execOp_unknown (op : Nat) (vm : VM) (w : World) (h : 21 ≤ op) :
    execOp op vm w = .faulted vm w := by
  unfold execOp
  iterate 21 rw [if_neg (by omega)]

theorem vectorFill_pres (A : Int) : ∀ (k : Nat) (vm : VM) (r : VM),
    (vectorFill A k vm = .ok r ∨ vectorFill A k vm = .error r) →
    r.stack = vm.stack ∧ r.globals = vm.globals ∧ r.vectors = vm.vectors ∧
    r.next_vector_index = vm.next_vector_index ∧
    r.next_memory_address = vm.next_memory_address ∧
    r.code = vm.code ∧ r.code_size = vm.code_size ∧
    r.memory.size = vm.memory.size ∧ r.sp ≤ vm.sp ∧ (-1 ≤ vm.sp → -1 ≤ r.sp) := by
  intro k
  induction k with
  | zero =>
    intro vm r hr
    rcases hr with hr | hr
    · cases hr
      exact ⟨rfl, rfl, rfl, rfl, rfl, rfl, rfl, rfl, le_refl _, fun h => h⟩
    · cases hr
  | succ k ih =>
    intro vm r hr
    by_cases hc : vm.sp < 0
    · rw [vectorFill_succ, if_pos hc] at hr
      rcases hr with hr | hr
      · cases hr
      · cases hr
        exact ⟨rfl, rfl, rfl, rfl, rfl, rfl, rfl, rfl, le_refl _, fun h => h⟩
    · rw [vectorFill_succ, if_neg hc, pop_nonneg vm (by omega)] at hr
      obtain ⟨g1, g2, g3, g4, g5, g6, g7, g8, g9, g10⟩ := ih _ r hr
      refine ⟨g1, g2, g3, g4, g5, g6, g7, ?_, ?_, ?_⟩
      · rw [g8]
        exact show (vm.memory.setD (A + (k : Int)).toNat
          (vm.stack.getD vm.sp.toNat 0)).size = vm.memory.size from
          Array.size_setD _ _ _
      · exact le_trans g9 (by exact show vm.sp - 1 ≤ vm.sp from by omega)
      · intro _
        apply g10
        exact show (-1 : Int) ≤ vm.sp - 1 from by omega

theorem push_vectors (vm : VM) (v : Val) : (push vm v).vectors = vm.vectors := by
  unfold push
  split <;> rfl

theorem push_nvi (vm : VM) (v : Val) :
    (push vm v).next_vector_index = vm.next_vector_index := by
  unfold push
  split <;> rfl

theorem push_nma (vm : VM) (v : Val) :
    (push vm v).next_memory_address = vm.next_memory_address := by
  unfold push
  split <;> rfl

theorem fetch_int_snd_vectors (vm : VM) :
    (fetch_int vm).2.vectors = vm.vectors := by
  unfold fetch_int
  split <;> rfl

theorem fetch_int_snd_nvi (vm : VM) :
    (fetch_int vm).2.next_vector_index = vm.next_vector_index := by
  unfold fetch_int
  split <;> rfl

theorem fetch_int_snd_nma (vm : VM) :
    (fetch_int vm).2.next_memory_address = vm.next_memory_address := by
  unfold fetch_int
  split <;> rfl

theorem step_preserves (vm : VM) (w : World) (hWF : WF vm) (hInv : Inv vm)
    (hw : WorldOK w) :
    WF (resVM (step vm w)) ∧ Inv (resVM (step vm w)) ∧
      WorldOK (resWorld (step vm w)) := by
  unfold step
  by_cases hfb : vm.ip ≥ vm.code_size
  · rw [show fetch_byte vm = (20, vm) from by unfold fetch_byte; rw [if_pos hfb]]
    dsimp only
    rw [execOp_halt]
    exact ⟨hWF, hInv, hw⟩
  · push_neg at hfb
    rw [fetch_byte_eq vm hfb]
    dsimp only
    set vmA : VM := { vm with ip := vm.ip + 1 } with hvmA
    have hWA : WF vmA := hWF
    have hIA : Inv vmA := hInv
    generalize byteAt vm vm.ip.toNat = op
    rcases Nat.lt_or_ge op 21 with h21 | h21
    · interval_cases op
      · -- OP_PUSH
        rw [execOp_push]
        exact ⟨WF_push _ _ (WF_fetch_double _ hWA),
          Inv_push _ _ (Inv_fetch_double _ hIA), hw⟩
      · -- OP_ADD
        rw [execOp_add]
        exact ⟨WF_push _ _ (WF_pop _ (WF_pop _ hWA)),
          Inv_push _ _ (Inv_pop _ (Inv_pop _ hIA)), hw⟩
      · -- OP_SUB
        rw [execOp_sub]
        exact ⟨WF_push _ _ (WF_pop _ (WF_pop _ hWA)),
          Inv_push _ _ (Inv_pop _ (Inv_pop _ hIA)), hw⟩
      · -- OP_MUL
        rw [execOp_mul]
        exact ⟨WF_push _ _ (WF_pop _ (WF_pop _ hWA)),
          Inv_push _ _ (Inv_pop _ (Inv_pop _ hIA)), hw⟩
      · -- OP_DIV
        rw [execOp_div]
        split
        · exact ⟨WF_pop _ (WF_pop _ hWA), Inv_pop _ (Inv_pop _ hIA), hw⟩
        · exact ⟨WF_push _ _ (WF_pop _ (WF_pop _ hWA)),
            Inv_push _ _ (Inv_pop _ (Inv_pop _ hIA)), hw⟩
      · -- OP_PRINT
        rw [execOp_print]
        split
        · rename_i hsp
          obtain ⟨h1, h2, h3, h4, h5, h6, h7, h8⟩ := hWA
          refine ⟨⟨h1, h2, h3, h4, ?_, ?_, h7, h8⟩, hIA, fun s hs => hw s hs⟩
          · exact show (-1 : Int) ≤ vmA.sp - 1 from by omega
          · exact show vmA.sp - 1 ≤ 1023 from by omega
        · exact ⟨hWA, hIA, hw⟩
      · -- OP_STORE
        rw [execOp_store]
        split
        · exact ⟨WF_fetch_int _ hWA, Inv_fetch_int _ hIA, hw⟩
        · obtain ⟨h1, h2, h3, h4, h5, h6, h7, h8⟩ := WF_pop _ (WF_fetch_int _ hWA)
          refine ⟨⟨h1, ?_, h3, h4, h5, h6, h7, h8⟩,
            Inv_pop _ (Inv_fetch_int _ hIA), hw⟩
          exact show ((pop (fetch_int vmA).2).2.globals.setD
            (fetch_int vmA).1.toNat (pop (fetch_int vmA).2).1).size = 256 from by
            rw [Array.size_setD]; exact h2
      · -- OP_LOAD
        rw [execOp_load]
        split
        · exact ⟨WF_fetch_int _ hWA, Inv_fetch_int _ hIA, hw⟩
        · exact ⟨WF_push _ _ (WF_fetch_int _ hWA),
            Inv_push _ _ (Inv_fetch_int _ hIA), hw⟩
      · -- OP_VECTOR
        rw [execOp_vector]
        dsimp only
        split
        · exact ⟨WF_fetch_int _ hWA, Inv_fetch_int _ hIA, hw⟩
        split
        · exact ⟨WF_fetch_int _ hWA, Inv_fetch_int _ hIA, hw⟩
        split
        · exact ⟨WF_fetch_int _ hWA, Inv_fetch_int _ hIA, hw⟩
        rename_i hg1 hg2 hg3
        have hWF2 := WF_fetch_int vmA hWA
        have hIF2 := Inv_fetch_int vmA hIA
        split
        · -- fill fault: state taken mid-loop
          rename_i vmf heq
          dsimp only [resVM, resWorld]
          obtain ⟨p1, p2, p3, p4, p5, p6, p7, p8, p9, p10⟩ :=
            vectorFill_pres _ _ _ vmf (Or.inr heq)
          obtain ⟨h1, h2, h3, h4, h5, h6, h7, h8⟩ := hWF2
          refine ⟨⟨by rw [p1]; exact h1, by rw [p2]; exact h2, by rw [p8]; exact h3,
            by rw [p3]; exact h4, p10 h5, by omega, by rw [p5]; exact h7,
            by rw [p4]; exact h8⟩, ?_, hw⟩
          obtain ⟨i1, i2, i3⟩ := hIF2
          refine ⟨by rw [p5]; exact i1, by rw [p4]; exact i2, ?_⟩
          intro i hi
          rw [p3, p5]
          rw [p4] at hi
          exact i3 i hi
        · -- fill succeeded
          rename_i vm2 heq
          dsimp only [resVM, resWorld]
          obtain ⟨p1, p2, p3, p4, p5, p6, p7, p8, p9, p10⟩ :=
            vectorFill_pres _ _ _ vm2 (Or.inl heq)
          obtain ⟨h1, h2, h3, h4, h5, h6, h7, h8⟩ := hWF2
          obtain ⟨i1, i2, i3⟩ := hIF2
          set vm3 : VM := { vm2 with
            vectors := vm2.vectors.setD vm2.next_vector_index.toNat
              ⟨(fetch_int vmA).1, (fetch_int vmA).2.next_memory_address⟩ }
            with hvm3
          have hvec3 : vm3.vectors = vm2.vectors.setD vm2.next_vector_index.toNat
              ⟨(fetch_int vmA).1, (fetch_int vmA).2.next_memory_address⟩ := rfl
          have hnvi3 : vm3.next_vector_index = vm2.next_vector_index := rfl
          have hnma3 : vm3.next_memory_address = vm2.next_memory_address := rfl
          have hWF3 : WF vm3 := by
            unfold WF
            rw [hvec3, hnvi3, hnma3,
              show vm3.stack = vm2.stack from rfl,
              show vm3.globals = vm2.globals from rfl,
              show vm3.memory = vm2.memory from rfl,
              show vm3.sp = vm2.sp from rfl]
            refine ⟨by rw [p1]; exact h1, by rw [p2]; exact h2,
              by rw [p8]; exact h3, by rw [Array.size_setD, p3]; exact h4,
              p10 h5, by omega, by rw [p5]; exact h7, by rw [p4]; exact h8⟩
          refine ⟨?_, ?_, hw⟩
          · -- WF of the final state
            obtain ⟨q1, q2, q3, q4, q5, q6, q7, q8⟩ := WF_push _ _ hWF3
            unfold WF
            dsimp only
            refine ⟨q1, q2, q3, q4, q5, q6, ?_, ?_⟩
            · rw [push_nma, hnma3, p5]
              omega
            · rw [push_nvi, hnvi3, p4]
              omega
          · -- Inv of the final state
            unfold Inv
            dsimp only
            refine ⟨?_, ?_, ?_⟩
            · rw [push_nma, hnma3, p5]
              omega
            · rw [push_nvi, hnvi3, p4]
              omega
            · intro i hi
              rw [push_nvi, hnvi3, p4] at hi
              rw [push_vectors, push_nma, hvec3, hnma3, p5]
              by_cases hieq : i = vm2.next_vector_index.toNat
              · subst hieq
                rw [getD_setD_self _ _ _ _ (by rw [p3]; rw [p4]; omega)]
              · rw [getD_setD_ne _ _ _ _ _ (fun hcontra => hieq hcontra.symm)]
                rw [p3]
                have hlt : (i : Int) < (fetch_int vmA).2.next_vector_index := by
                  have : (i : Int) ≠ vm2.next_vector_index := by
                    intro hcontra
                    apply hieq
                    omega
                  rw [p4] at this
                  omega
                exact le_trans (i3 i hlt) (by omega)
      · -- OP_DOT
        rw [execOp_dot]
        dsimp only
        split
        · exact ⟨WF_pop _ (WF_pop _ hWA), Inv_pop _ (Inv_pop _ hIA), hw⟩
        · split
          · exact ⟨WF_pop _ (WF_pop _ hWA), Inv_pop _ (Inv_pop _ hIA), hw⟩
          · exact ⟨WF_push _ _ (WF_pop _ (WF_pop _ hWA)),
              Inv_push _ _ (Inv_pop _ (Inv_pop _ hIA)), hw⟩
      · -- OP_RELU
        rw [execOp_relu]
        split
        · exact ⟨WF_push _ _ (WF_pop _ hWA), Inv_push _ _ (Inv_pop _ hIA), hw⟩
        · exact ⟨WF_push _ _ (WF_pop _ hWA), Inv_push _ _ (Inv_pop _ hIA), hw⟩
      · -- OP_GT
        rw [execOp_gt]
        exact ⟨WF_push _ _ (WF_pop _ (WF_pop _ hWA)),
          Inv_push _ _ (Inv_pop _ (Inv_pop _ hIA)), hw⟩
      · -- OP_LT
        rw [execOp_lt]
        exact ⟨WF_push _ _ (WF_pop _ (WF_pop _ hWA)),
          Inv_push _ _ (Inv_pop _ (Inv_pop _ hIA)), hw⟩
      · -- OP_EQ
        rw [execOp_eqop]
        exact ⟨WF_push _ _ (WF_pop _ (WF_pop _ hWA)),
          Inv_push _ _ (Inv_pop _ (Inv_pop _ hIA)), hw⟩
      · -- OP_JUMP_IF_FALSE
        rw [execOp_jif]
        split
        · exact ⟨WF_pop _ (WF_fetch_int _ hWA),
            Inv_pop _ (Inv_fetch_int _ hIA), hw⟩
        · exact ⟨WF_pop _ (WF_fetch_int _ hWA),
            Inv_pop _ (Inv_fetch_int _ hIA), hw⟩
      · -- OP_JUMP
        rw [execOp_jump]
        exact ⟨WF_fetch_int _ hWA, Inv_fetch_int _ hIA, hw⟩
      · -- OP_RAND
        rw [execOp_rand]
        exact ⟨WF_push _ _ hWA, Inv_push _ _ hIA, fun s hs => hw s hs⟩
      · -- OP_INPUT
        rw [execOp_input]
        exact ⟨WF_push _ _ hWA, Inv_push _ _ hIA, fun s hs => hw s hs⟩
      · -- OP_SAVE_FILE
        rw [execOp_save]
        unfold execSaveFile
        split
        · refine ⟨hWA, hIA, ?_⟩
          intro s hs
          obtain ⟨h1, h2, h3, h4, h5, h6, h7, h8⟩ := hWA
          obtain ⟨i1, i2, i3⟩ := hIA
          have hs2 : some (⟨vmA.next_memory_address, vmA.next_vector_index,
              vmA.memory, vmA.vectors⟩ : Snapshot) = some s := hs
          cases hs2
          exact ⟨h3, h4, h7, h8, i1, i2, i3⟩
        · exact ⟨hWA, hIA, hw⟩
      · -- OP_LOAD_FILE
        rw [execOp_loadfile]
        unfold execLoadFile
        split
        · exact ⟨hWA, hIA, hw⟩
        · rename_i s hs
          have hsOK := hw s hs
          obtain ⟨k1, k2, k3, k4, k5, k6, k7⟩ := hsOK
          obtain ⟨h1, h2, h3, h4, h5, h6, h7, h8⟩ := hWA
          exact ⟨⟨h1, h2, k1, k2, h5, h6, k3, k4⟩, ⟨k5, k6, k7⟩, hw⟩
      · -- OP_HALT
        rw [execOp_halt]
        exact ⟨hWA, hIA, hw⟩
    · rw [execOp_unknown op vmA w h21]
      exact ⟨hWA, hIA, hw⟩

/-- Claim C5: the vector-subsystem invariant (`address + size ≤
next_memory_address ≤ MEMORY_SIZE` for every allocated descriptor,
`next_vector_index ≤ MAX_VECTORS`) holds in the freshly created VM and is
preserved by every instruction the engine executes, including `LOAD_FILE`
restoring a snapshot (the snapshot file holding what `SAVE_FILE` wrote
from an invariant-satisfying state, as `WorldOK` states). -/
theorem vector_invariant_preserved :
    Inv vm_create ∧ WF vm_create ∧
    (∀ (vm : VM) (w : World), WF vm → Inv vm → WorldOK w →
      WF (resVM (step vm w)) ∧ Inv (resVM (step vm w)) ∧
        WorldOK (resWorld (step vm w))) := by
  refine ⟨⟨?_, ?_, ?_⟩, ⟨?_, ?_, ?_, ?_, ?_, ?_, ?_, ?_⟩,
    fun vm w h1 h2 h3 => step_preserves vm w h1 h2 h3⟩
  · exact show (0 : Int) ≤ 1024 from by norm_num
  · exact show (0 : Int) ≤ 128 from by norm_num
  · intro i hi
    exact absurd hi (by exact show ¬((i : Int) < 0) from by omega)
  · simp [vm_create]
  · simp [vm_create]
  · simp [vm_create]
  · simp [vm_create]
  · exact show (-1 : Int) ≤ -1 from le_refl _
  · exact show (-1 : Int) ≤ 1023 from by norm_num
  · exact le_refl _
  · exact le_refl _

theorem vector_invariant_preserved_witness :
    WF (resVM (step vm_create w0)) ∧ Inv (resVM (step vm_create w0)) := by
  obtain ⟨hi, hwf, hpres⟩ := vector_invariant_preserved
  have h := hpres vm_create w0 hwf hi (fun s hs => Option.noConfusion hs)
  exact ⟨h.1, h.2.1⟩

/-- Claim C3 counterexample: a `PUSH` at offset 0 of a 2-byte program has
a truncated 8-byte operand, yet the engine does not unwind: it pushes the
substituted 0.0, goes on to execute the following `PRINT` instruction
(visible as the printed 0 on stdout), and ends in the `halted` outcome,
not `faulted`. -/
theorem truncated_fetch_counterexample :
    (run 10 vmC3 w0).map (fun r => (r.1, r.2.2.output)) =
      some (Outcome.halted, [0]) := rfl

/-- Claim C3 as amended: a truncated operand fetch reports a diagnostic and
substitutes a default (0 / 0.0) without advancing `ip` and without
unwinding: the instruction proceeds with the substituted value and the
loop continues. -/
theorem truncated_fetch_nonfatal (vm : VM) (w : World) :
    (vm.ip + 8 > vm.code_size → fetch_double vm = (0, vm)) ∧
    (vm.ip + 4 > vm.code_size → fetch_int vm = (0, vm)) ∧
    (0 ≤ vm.ip → vm.ip < vm.code_size → byteAt vm vm.ip.toNat = 0 →
      vm.code_size < vm.ip + 9 →
      step vm w = .cont (push { vm with ip := vm.ip + 1 } 0) w) := by
  refine ⟨?_, ?_, ?_⟩
  · intro h
    unfold fetch_double
    rw [if_pos h]
  · intro h
    unfold fetch_int
    rw [if_pos h]
  · intro h0 h1 h2 h3
    rw [step_eq vm w h1, h2, execOp_push]
    rw [show fetch_double { vm with ip := vm.ip + 1 } =
        (0, { vm with ip := vm.ip + 1 }) from by
      unfold fetch_double
      rw [if_pos (by exact show vm.ip + 1 + 8 > vm.code_size from by omega)]]

set_option maxRecDepth 4000 in
theorem truncated_fetch_nonfatal_witness :
    fetch_double vmC3 = (0, vmC3) ∧
    step vmC3 w0 = .cont (push { vmC3 with ip := vmC3.ip + 1 } 0) w0 := by
  exact ⟨(truncated_fetch_nonfatal vmC3 w0).1 (by decide),
    (truncated_fetch_nonfatal vmC3 w0).2.2 (by decide) (by decide) (by decide)
      (by decide)⟩

/-- Claim C4: executing `SAVE_FILE` successfully writes the snapshot of the
four fields and modifies nothing in the VM; a later successful `LOAD_FILE`
(with the file unmodified, possibly in a fresh VM `vm2`) restores exactly
`memory`, `vectors`, `next_memory_address`, `next_vector_index`, leaving
the other fields of `vm2` (stack, sp, globals, ip, code, code_size)
untouched.  The final two conjuncts state the same at the level of the
fetch-decode-execute cycle, where only the opcode fetch advances `ip`. -/
theorem save_load_roundtrip (vm vm2 : VM) (w w2 : World)
    (hwrit : w.writable = true)
    (hfile : w2.file = (execSaveFile vm w).2.file) :
    (execSaveFile vm w).1 = vm ∧
    (execSaveFile vm w).2.file =
      some ⟨vm.next_memory_address, vm.next_vector_index,
        vm.memory, vm.vectors⟩ ∧
    execLoadFile vm2 w2 = ({ vm2 with
      next_memory_address := vm.next_memory_address
      next_vector_index := vm.next_vector_index
      memory := vm.memory
      vectors := vm.vectors }, w2) ∧
    (∀ wx : World, wx.writable = true → 0 ≤ vm.ip → vm.ip < vm.code_size →
      byteAt vm vm.ip.toNat = 18 →
      step vm wx = .cont { vm with ip := vm.ip + 1 }
        { wx with file := some ⟨vm.next_memory_address, vm.next_vector_index,
            vm.memory, vm.vectors⟩ }) ∧
    (0 ≤ vm2.ip → vm2.ip < vm2.code_size → byteAt vm2 vm2.ip.toNat = 19 →
      step vm2 w2 = .cont { vm2 with
        ip := vm2.ip + 1
        next_memory_address := vm.next_memory_address
        next_vector_index := vm.next_vector_index
        memory := vm.memory
        vectors := vm.vectors } w2) := by
  have hsave : (execSaveFile vm w).2.file =
      some ⟨vm.next_memory_address, vm.next_vector_index,
        vm.memory, vm.vectors⟩ := by
    unfold execSaveFile
    rw [if_pos hwrit]
  have hf2 : w2.file = some ⟨vm.next_memory_address, vm.next_vector_index,
      vm.memory, vm.vectors⟩ := by
    rw [hfile, hsave]
  refine ⟨?_, hsave, ?_, ?_, ?_⟩
  · unfold execSaveFile
    rw [if_pos hwrit]
  · unfold execLoadFile
    rw [hf2]
  · intro wx hwx h0 h1 h2
    rw [step_eq vm wx h1, h2, execOp_save]
    unfold execSaveFile
    rw [if_pos (by exact show wx.writable = true from hwx)]
  · intro h0 h1 h2
    rw [step_eq vm2 w2 h1, h2, execOp_loadfile]
    unfold execLoadFile
    rw [hf2]

set_option maxRecDepth 8000 in
theorem save_load_roundtrip_witness :
    (execSaveFile vmS w0).1 = vmS ∧
    execLoadFile vm_create wSaved = ({ vm_create with
      next_memory_address := vmS.next_memory_address
      next_vector_index := vmS.next_vector_index
      memory := vmS.memory
      vectors := vmS.vectors }, wSaved) ∧
    (execLoadFile vm_create wSaved).1.memory = vmS.memory := by
  obtain ⟨h1, h2, h3, h4, h5⟩ :=
    save_load_roundtrip vmS vm_create w0 wSaved rfl rfl
  exact ⟨h1, h3, by rw [h3]⟩

/-- Claim C6: DIV pops `b` then `a`; if `b` is 0.0 the engine reports a
fatal fault and halts immediately — nothing is pushed (the faulted state
has both operands popped and the stack contents untouched) and no further
instruction executes; otherwise it pushes the quotient `a / b` and the
loop continues. -/
theorem div_by_zero_fatal (vm : VM) (w : World)
    (hip0 : 0 ≤ vm.ip) (hip : vm.ip < vm.code_size)
    (hop : byteAt vm vm.ip.toNat = 4)
    (hsp : 1 ≤ vm.sp) (hsp2 : vm.sp ≤ 1023) :
    (vm.stack.getD vm.sp.toNat 0 = 0 →
      step vm w = .faulted { vm with ip := vm.ip + 1, sp := vm.sp - 2 } w ∧
      ∀ fuel, run (fuel + 1) vm w = some (.faulted,
        { vm with ip := vm.ip + 1, sp := vm.sp - 2 }, w)) ∧
    (vm.stack.getD vm.sp.toNat 0 ≠ 0 →
      step vm w = .cont { vm with
        stack := vm.stack.setD (vm.sp - 1).toNat
          (vm.stack.getD (vm.sp - 1).toNat 0 / vm.stack.getD vm.sp.toNat 0)
        sp := vm.sp - 1
        ip := vm.ip + 1 } w) := by
  have hmain : step vm w =
      (if vm.stack.getD vm.sp.toNat 0 = 0 then
        StepResult.faulted { vm with ip := vm.ip + 1, sp := vm.sp - 2 } w
      else
        StepResult.cont { vm with
          stack := vm.stack.setD (vm.sp - 1).toNat
            (vm.stack.getD (vm.sp - 1).toNat 0 / vm.stack.getD vm.sp.toNat 0)
          sp := vm.sp - 1
          ip := vm.ip + 1 } w) := by
    rw [step_eq vm w hip, hop, execOp_div]
    rw [pop_snd { vm with ip := vm.ip + 1 }
        (by exact show (0 : Int) ≤ vm.sp from by omega),
      pop_fst { vm with ip := vm.ip + 1 }
        (by exact show (0 : Int) ≤ vm.sp from by omega)]
    dsimp only
    rw [pop_snd _ (by exact show (0 : Int) ≤ vm.sp - 1 from by omega),
      pop_fst _ (by exact show (0 : Int) ≤ vm.sp - 1 from by omega)]
    dsimp only
    split
    · rw [show vm.sp - 1 - 1 = vm.sp - 2 from by omega]
    · rw [push_lt _ _ (by exact show vm.sp - 1 - 1 < 1023 from by omega)]
      dsimp only
      rw [show vm.sp - 1 - 1 + 1 = vm.sp - 1 from by omega]
  constructor
  · intro hz
    rw [hmain, if_pos hz]
    exact ⟨rfl, fun fuel => run_of_faulted fuel vm _ w w hip (by rw [hmain, if_pos hz])⟩
  · intro hz
    rw [hmain, if_neg hz]

theorem div_by_zero_fatal_witness :
    step vmDiv w0 = .faulted { vmDiv with ip := 1, sp := -1 } w0 ∧
    step vmDiv2 w0 = .cont { vmDiv2 with
      stack := vmDiv2.stack.setD 0 (3 / 2)
      sp := 0
      ip := 1 } w0 := by
  constructor
  · exact ((div_by_zero_fatal vmDiv w0 (by decide) (by decide) (by decide)
      (by decide) (by decide)).1 (by decide)).1
  · exact (div_by_zero_fatal vmDiv2 w0 (by decide) (by decide) (by decide)
      (by decide) (by decide)).2 (by decide)

/-- Claim C7: a `push` onto a full stack (sp = 1023) is a reported no-op that
discards the value; `pop` from an empty stack (sp = -1) reports underflow
and returns 0.0 with `sp` unchanged.  Both are non-fatal: an `ADD`
executed on an empty stack proceeds with the substituted zeros and the
loop continues (`.cont`). -/
theorem stack_overflow_underflow_nonfatal (vm : VM) (v : Val) (w : World) :
    (vm.sp = 1023 → push vm v = vm) ∧
    (vm.sp = -1 → pop vm = (0, vm)) ∧
    (vm.sp = -1 → 0 ≤ vm.ip → vm.ip < vm.code_size →
      byteAt vm vm.ip.toNat = 1 →
      step vm w = .cont { vm with
        stack := vm.stack.setD 0 0
        sp := 0
        ip := vm.ip + 1 } w) := by
  refine ⟨?_, ?_, ?_⟩
  · intro h
    unfold push
    rw [if_pos (by omega)]
  · intro h
    unfold pop
    rw [if_pos (by omega)]
  · intro h1 h2 h3 h4
    rw [step_eq vm w h3, h4, execOp_add]
    rw [pop_neg { vm with ip := vm.ip + 1 }
      (by exact show vm.sp < 0 from by omega)]
    dsimp only
    rw [pop_neg { vm with ip := vm.ip + 1 }
      (by exact show vm.sp < 0 from by omega)]
    dsimp only
    rw [push_lt { vm with ip := vm.ip + 1 } _
      (by exact show vm.sp < 1023 from by omega)]
    dsimp only
    rw [show vm.sp + 1 = 0 from by omega,
      show (0 : Val) + 0 = 0 from by norm_num]
    rfl

theorem stack_overflow_underflow_nonfatal_witness :
    push vmFull 5 = vmFull ∧ pop vm_create = (0, vm_create) ∧
    step vmAddE w0 = .cont { vmAddE with
      stack := vmAddE.stack.setD 0 0
      sp := 0
      ip := 1 } w0 := by
  refine ⟨?_, ?_, ?_⟩
  · exact (stack_overflow_underflow_nonfatal vmFull 5 w0).1 (by decide)
  · exact (stack_overflow_underflow_nonfatal vm_create 5 w0).2.1 (by decide)
  · exact (stack_overflow_underflow_nonfatal vmAddE 5 w0).2.2 (by decide)
      (by decide) (by decide) (by decide)

/-- Claim C8: EQ pops `b` then `a` and pushes 1.0 exactly when
`|a - b| < 1e-9`, 0.0 otherwise (first conjunct, over the VM's value
model); the code's two-sided test `(a - b) < eps && (b - a) < eps`
coincides with `|a - b| < eps` for all values of that model (second
conjunct), and — third conjunct — for all IEEE-754 `double` values
including the non-finite ones: over `FP`, whose NaN and signed-infinity
subtraction, `<` and `fabs` follow IEEE-754, the two tests agree for
every pair of operands (both are false whenever `a - b` is NaN or
infinite, since `<` is false on NaN and `±inf` is not below `eps`
together with its negation). -/
theorem eq_epsilon_compare (vm : VM) (w : World)
    (hip0 : 0 ≤ vm.ip) (hip : vm.ip < vm.code_size)
    (hop : byteAt vm vm.ip.toNat = 13)
    (hsp : 1 ≤ vm.sp) (hsp2 : vm.sp ≤ 1023) :
    step vm w = .cont { vm with
      stack := vm.stack.setD (vm.sp - 1).toNat
        (if |vm.stack.getD (vm.sp - 1).toNat 0 -
            vm.stack.getD vm.sp.toNat 0| < epsilon then 1 else 0)
      sp := vm.sp - 1
      ip := vm.ip + 1 } w ∧
    (∀ x y : Val, (x - y < epsilon ∧ y - x < epsilon) ↔ |x - y| < epsilon) ∧
    (∀ a b : FP,
      (fpLess (fpSub a b) (.finite epsilon) = true ∧
        fpLess (fpSub b a) (.finite epsilon) = true) ↔
      fpLess (fpAbs (fpSub a b)) (.finite epsilon) = true) := by
  refine ⟨?_, ?_, ?_⟩
  · rw [step_eq vm w hip, hop, execOp_eqop]
    rw [pop_snd { vm with ip := vm.ip + 1 }
        (by exact show (0 : Int) ≤ vm.sp from by omega),
      pop_fst { vm with ip := vm.ip + 1 }
        (by exact show (0 : Int) ≤ vm.sp from by omega)]
    dsimp only
    rw [pop_snd _ (by exact show (0 : Int) ≤ vm.sp - 1 from by omega),
      pop_fst _ (by exact show (0 : Int) ≤ vm.sp - 1 from by omega)]
    dsimp only
    rw [push_lt _ _ (by exact show vm.sp - 1 - 1 < 1023 from by omega)]
    dsimp only
    rw [show vm.sp - 1 - 1 + 1 = vm.sp - 1 from by omega]
    simp only [abs_sub_lt_iff]
  · intro x y
    exact (abs_sub_lt_iff).symm
  · intro a b
    rcases a with q1 | s1 | - <;> rcases b with q2 | s2 | -
    · simp [fpSub, fpLess, fpAbs, abs_sub_lt_iff]
    · cases s2 <;> simp [fpSub, fpLess, fpAbs]
    · simp [fpSub, fpLess, fpAbs]
    · cases s1 <;> simp [fpSub, fpLess, fpAbs]
    · cases s1 <;> cases s2 <;> simp [fpSub, fpLess, fpAbs]
    · simp [fpSub, fpLess, fpAbs]
    · simp [fpSub, fpLess, fpAbs]
    · simp [fpSub, fpLess, fpAbs]
    · simp [fpSub, fpLess, fpAbs]

theorem eq_epsilon_compare_witness :
    (∃ vmr, step vmEq1 w0 = StepResult.cont vmr w0 ∧
      vmr.stack.getD 0 0 = 1) ∧
    (∃ vmr, step vmEq2 w0 = StepResult.cont vmr w0 ∧
      vmr.stack.getD 0 0 = 0) ∧
    ((fpLess (fpSub FP.nan (FP.finite 1)) (FP.finite epsilon) = true ∧
      fpLess (fpSub (FP.finite 1) FP.nan) (FP.finite epsilon) = true) ↔
      fpLess (fpAbs (fpSub FP.nan (FP.finite 1))) (FP.finite epsilon) = true) ∧
    ((fpLess (fpSub (FP.inf true) (FP.inf true)) (FP.finite epsilon) = true ∧
      fpLess (fpSub (FP.inf true) (FP.inf true)) (FP.finite epsilon) = true) ↔
      fpLess (fpAbs (fpSub (FP.inf true) (FP.inf true)))
        (FP.finite epsilon) = true) := by
  refine ⟨?_, ?_, ?_, ?_⟩
  · have h := (eq_epsilon_compare vmEq1 w0 (by decide) (by decide) (by decide)
      (by decide) (by decide)).1
    refine ⟨_, h, ?_⟩
    show (if |(1 : Val) - 10000000001 / 10 ^ 10| < epsilon then (1 : Val)
      else 0) = 1
    rw [if_pos]
    rw [abs_sub_lt_iff]
    constructor <;> norm_num [epsilon]
  · have h := (eq_epsilon_compare vmEq2 w0 (by decide) (by decide) (by decide)
      (by decide) (by decide)).1
    refine ⟨_, h, ?_⟩
    show (if |(1 : Val) - 11 / 10| < epsilon then (1 : Val) else 0) = 0
    rw [if_neg]
    rw [abs_sub_lt_iff]
    intro hcon
    rcases hcon with ⟨-, hc⟩
    norm_num [epsilon] at hc
  · exact (eq_epsilon_compare vmEq1 w0 (by decide) (by decide) (by decide)
      (by decide) (by decide)).2.2 FP.nan (FP.finite 1)
  · exact (eq_epsilon_compare vmEq2 w0 (by decide) (by decide) (by decide)
      (by decide) (by decide)).2.2 (FP.inf true) (FP.inf true)

/-- Claim C9: the process exits 0 whenever the program was loaded
successfully and the execution loop returned — after a clean halt,
natural end-of-code, or a mid-execution fatal fault alike — and exits 1
exactly when VM allocation or program loading fails. -/
theorem exit_code_contract (fuel : Nat) (allocOk : Bool)
    (file : Option (List Nat)) (w : World) :
    (allocOk = false → mainRun fuel allocOk file w = some 1) ∧
    (vm_load_program vm_create file = none →
      mainRun fuel allocOk file w = some 1) ∧
    (∀ (vm : VM) (r : Outcome × VM × World), allocOk = true →
      vm_load_program vm_create file = some vm →
      vm_execute fuel vm w = some r →
      mainRun fuel allocOk file w = some 0) ∧
    (∀ c : Int, mainRun fuel allocOk file w = some c →
      (c = 1 ↔ (allocOk = false ∨ vm_load_program vm_create file = none)) ∧
      (c = 0 ↔ (allocOk = true ∧ vm_load_program vm_create file ≠ none))) := by
  refine ⟨?_, ?_, ?_, ?_⟩
  · intro h
    simp [mainRun, h]
  · intro h
    by_cases hA : allocOk <;> simp [mainRun, hA, h]
  · intro vm r hA hl hr
    simp [mainRun, hA, hl, hr]
  · intro c hc
    by_cases hA : allocOk
    · rcases hl : vm_load_program vm_create file with - | vm
      · rw [mainRun, if_pos (by exact hA), hl] at hc
        simp only [Option.some.injEq] at hc
        subst hc
        simp [hA, hl]
      · rcases hr : vm_execute fuel vm w with - | r
        · rw [mainRun, if_pos (by exact hA), hl] at hc
          dsimp only at hc
          rw [hr] at hc
          simp at hc
        · rw [mainRun, if_pos (by exact hA), hl] at hc
          dsimp only at hc
          rw [hr] at hc
          simp only [Option.some.injEq] at hc
          subst hc
          constructor
          · constructor
            · intro h10
              norm_num at h10
            · intro hcon
              rcases hcon with hcon | hcon
              · rw [hA] at hcon
                cases hcon
              · simp [hl] at hcon
          · simp [hA, hl]
    · rw [mainRun, if_neg (by exact hA)] at hc
      simp only [Option.some.injEq] at hc
      subst hc
      constructor
      · simp [by simpa using hA]
      · constructor
        · intro h10
          norm_num at h10
        · intro hcon
          exact absurd hcon.1 hA

set_option maxRecDepth 100000 in
theorem exit_code_contract_witness :
    mainRun 10 true (some [20]) w0 = some 0 ∧
    mainRun 10 true (some [4]) w0 = some 0 ∧
    mainRun 10 true none w0 = some 1 ∧
    mainRun 10 false (some [20]) w0 = some 1 := by
  refine ⟨?_, ?_, ?_, ?_⟩
  · exact (exit_code_contract 10 true (some [20]) w0).2.2.1 _ _ rfl rfl rfl
  · exact (exit_code_contract 10 true (some [4]) w0).2.2.1 _ _ rfl rfl rfl
  · exact (exit_code_contract 10 true none w0).2.1 rfl
  · exact (exit_code_contract 10 false (some [20]) w0).1 rfl

/-- Claim C10: STORE and `LOAD` with a 4-byte index operand outside
[0, 256) fault fatally with the VM unchanged apart from the advanced
instruction pointer (opcode byte plus 4 operand bytes): the index is
validated before any pop, so sp, the stack contents and all globals are
exactly as before, and no further instruction executes. -/
theorem store_load_invalid_index (vm : VM) (w : World) (idx : Int)
    (hip0 : 0 ≤ vm.ip) (hip : vm.ip + 5 ≤ vm.code_size)
    (hidx : intOperandAt vm (vm.ip.toNat + 1) = idx)
    (hbad : idx < 0 ∨ 256 ≤ idx) :
    (byteAt vm vm.ip.toNat = 6 →
      step vm w = .faulted { vm with ip := vm.ip + 5 } w ∧
      ∀ fuel, run (fuel + 1) vm w =
        some (.faulted, { vm with ip := vm.ip + 5 }, w)) ∧
    (byteAt vm vm.ip.toNat = 7 →
      step vm w = .faulted { vm with ip := vm.ip + 5 } w ∧
      ∀ fuel, run (fuel + 1) vm w =
        some (.faulted, { vm with ip := vm.ip + 5 }, w)) := by
  have hfetch : fetch_int { vm with ip := vm.ip + 1 } =
      (idx, { vm with ip := vm.ip + 5 }) := by
    rw [fetch_int_eq _
      (by exact show vm.ip + 1 + 4 ≤ vm.code_size from by omega)]
    rw [Prod.mk.injEq]
    constructor
    · show intOperandAt { vm with ip := vm.ip + 1 }
        ({ vm with ip := vm.ip + 1 } : VM).ip.toNat = idx
      rw [show ({ vm with ip := vm.ip + 1 } : VM).ip.toNat
        = vm.ip.toNat + 1 from by simp only; omega]
      exact hidx
    · show ({ vm with ip := vm.ip + 1 + 4 } : VM) = _
      rw [show vm.ip + 1 + 4 = vm.ip + 5 from by omega]
  constructor
  · intro hop
    have hs : step vm w = .faulted { vm with ip := vm.ip + 5 } w := by
      rw [step_eq vm w (by omega), hop, execOp_store, hfetch]
      dsimp only
      rw [if_pos (by omega)]
    exact ⟨hs, fun fuel => run_of_faulted fuel vm _ w w (by omega) hs⟩
  · intro hop
    have hs : step vm w = .faulted { vm with ip := vm.ip + 5 } w := by
      rw [step_eq vm w (by omega), hop, execOp_load, hfetch]
      dsimp only
      rw [if_pos (by omega)]
    exact ⟨hs, fun fuel => run_of_faulted fuel vm _ w w (by omega) hs⟩

theorem store_load_invalid_index_witness :
    step vmSt w0 = .faulted { vmSt with ip := 5 } w0 ∧
    step vmLd w0 = .faulted { vmLd with ip := 5 } w0 := by
  constructor
  · exact ((store_load_invalid_index vmSt w0 256 (by decide) (by decide)
      (by decide) (by decide)).1 (by decide)).1
  · exact ((store_load_invalid_index vmLd w0 (-1) (by decide) (by decide)
      (by decide) (by decide)).2 (by decide)).1

end Picolin
